import Mathlib

/-!
Verification of the smart-card demo core (APDU codec, BER-TLV codec,
PIV object retrieval loop, reader-tracking update step) against a shallow
embedding of the TypeScript sources.

Machine-level conventions of the embedding:
* An ArrayBuffer / Uint8Array is a `List Nat` whose elements are byte
  values; reads with `List.getD _ _ 0` mirror in-bounds typed-array reads.
* JavaScript bitwise operators work on 32-bit two's complement values.
  We track the unsigned 32-bit pattern as a `Nat < 2^32` and convert to a
  signed JavaScript number with `toInt32` exactly where the source lets a
  bitwise result escape into arithmetic.  Shift counts are reduced mod 32,
  as JavaScript does.
* A thrown Error is an `Except.error` carrying a constructor that names
  the throw site; the host transport is a list of scripted response
  buffers consumed in order.
-/

/-- Error outcomes of the embedded code.  Each constructor corresponds to a
distinct throw site in the sources (or, for the last three, to a modelling
boundary that no theorem below ever reaches). -/
inductive JsError
  /-- apdu.ts deserializeResponse: response APDU shorter than 2 bytes. -/
  | responseTooShort
  /-- apdu.ts serializeCommand: command Ne cannot be 0. -/
  | neZero
  /-- util.ts assert(...) fired. -/
  | assertViolation
  /-- index.ts fetchObject: unexpected status word. -/
  | statusWordError (sw : Nat)
  /-- index.ts fetchObject: GET DATA response has no data. -/
  | noData
  /-- index.ts fetchObject: accumulated object larger than MAX_DATA_LENGTH. -/
  | objectTooLarge
  /-- index.ts fetchObject: accumulated GET DATA response shorter than 2 bytes. -/
  | getDataTooShort
  /-- index.ts fetchObject: first accumulated byte is not the discretionary-data tag. -/
  | notDiscretionaryData
  /-- index.ts fetchObject: BER length span does not match the accumulated size. -/
  | badBEREncoding
  /-- ber.ts getValue: no entry with the requested tag. -/
  | tagNotFound
  /-- Modelling boundary: the scripted transport has no further response. -/
  | transportExhausted
  /-- Modelling boundary: fuel bound of the getValue scan loop. -/
  | fuelExhausted
deriving DecidableEq, Repr

deriving instance DecidableEq for Except

/-- Unsigned 32-bit pattern reinterpreted as a signed JavaScript number
(ECMAScript ToInt32 of a value already reduced mod 2^32). -/
def toInt32 (p : Nat) : Int :=
  if p % 4294967296 < 2147483648 then ((p % 4294967296 : Nat) : Int)
  else ((p % 4294967296 : Nat) : Int) - 4294967296

/-- JavaScript `x << s` on an unsigned 32-bit pattern: the shift count is
taken mod 32 and the result truncated to 32 bits. -/
def jsShl (b s : Nat) : Nat := (b <<< (s % 32)) % 4294967296

/-- ber.ts numberByteSize: count of base-256 digits of `value`
(`while (value > 0) { byteSize++; value = value >> 8; }`).  The JavaScript
`>> 8` agrees with `>>> 8` on the values below 2^31 that the demo feeds it. -/
def numberByteSize (value : Nat) : Nat :=
  if value = 0 then 0 else numberByteSize (value >>> 8) + 1
termination_by value
decreasing_by
  simp only [Nat.shiftRight_eq_div_pow]
  exact Nat.div_lt_self (Nat.pos_of_ne_zero (by assumption)) (by norm_num)

/-- Uint8Array element store `bytes[i] = v`: out-of-range stores are
silently dropped, in-range stores keep the low byte. -/
def setByte (bytes : List Nat) (i v : Nat) : List Nat :=
  if i < bytes.length then bytes.set i (v % 256) else bytes

/-- The digit-writing loop of ber.ts serializeNumber.  `d + 1` plays the
role of `currentDigit`; the write offset is `i` and then `i + 1`. -/
def serializeNumberAux (n : Nat) : Nat → Nat → List Nat → List Nat
  | _, 0, bytes => bytes
  | i, d + 1, bytes =>
      serializeNumberAux n (i + 1) d (setByte bytes i ((n >>> (8 * d)) &&& 0xFF))

/-- ber.ts serializeNumber: big-endian store of `n` into `bytes` starting
at `bytesOffset`, writing `numberByteSize n` digits. -/
def serializeNumber (bytes : List Nat) (bytesOffset n : Nat) : List Nat :=
  serializeNumberAux n bytesOffset (numberByteSize n) bytes

/-- The accumulation loop of ber.ts deserializeNumber on 32-bit patterns:
`n |= bytes[bytesOffset + (width - currentDigit)] << (8 * (currentDigit - 1))`
with `currentDigit = d + 1` counting down. -/
def deserializeNumberAux (bytes : List Nat) (off width : Nat) : Nat → Nat → Nat
  | 0, n => n
  | d + 1, n =>
      deserializeNumberAux bytes off width d
        (n ||| jsShl (bytes.getD (off + (width - (d + 1))) 0) (8 * d))

/-- ber.ts deserializeNumber: the two asserts, then the big-endian read
whose `<<` and `|=` are JavaScript 32-bit operations; the result is the
signed 32-bit reinterpretation of the accumulated pattern. -/
def deserializeNumber (bytes : List Nat) (bytesOffset width : Nat) : Except JsError Int :=
  if bytesOffset < bytes.length ∧ 0 < width ∧ bytesOffset + width ≤ bytes.length then
    .ok (toInt32 (deserializeNumberAux bytes bytesOffset width width 0))
  else .error .assertViolation

/-- ber.ts BERLength result record.  `length` is a JavaScript number and can
be negative (indefinite form near the end of a buffer, or a wrapped 32-bit
read), so it is an `Int`. -/
structure BERLength where
  length : Int
  valueOffset : Nat
deriving DecidableEq, Repr

/-- ber.ts readLength.  In range, the three cases of the source; out of
range, `bytes[i]` is `undefined`, both comparisons are false, `undefined &
127` is `0`, and deserializeNumber's width assert throws — which the final
branch reproduces. -/
def readLength (bytes : List Nat) (bytesOffset : Nat) : Except JsError BERLength :=
  if bytesOffset < bytes.length then
    if bytes.getD bytesOffset 0 < 128 then
      .ok ⟨(bytes.getD bytesOffset 0 : Int), bytesOffset + 1⟩
    else if bytes.getD bytesOffset 0 = 128 then
      .ok ⟨(bytes.length : Int) - (bytesOffset + 1) - 2, bytesOffset + 1⟩
    else
      (deserializeNumber bytes (bytesOffset + 1) (bytes.getD bytesOffset 0 &&& 127)).map
        (fun n => ⟨n, bytesOffset + 1 + (bytes.getD bytesOffset 0 &&& 127)⟩)
  else
    (deserializeNumber bytes (bytesOffset + 1) 0).map
      (fun n => ⟨n, bytesOffset + 1⟩)

/-- JavaScript `buffer.slice(s, e)`: negative indices count from the end,
then both are clamped to the buffer before taking the range. -/
def jsSlice (l : List Nat) (s e : Int) : List Nat :=
  (l.take (if e < 0 then max ((l.length : Int) + e) 0 else min e (l.length : Int)).toNat).drop
    (if s < 0 then max ((l.length : Int) + s) 0 else min s (l.length : Int)).toNat

/-- The scan loop of ber.ts getValue.  The source advances `i` by
`valueOffset + length`, a JavaScript number that adversarial inputs can
drive negative or into a cycle, so the embedding carries `i : Int` and a
fuel bound; no theorem below reaches either boundary constructor. -/
def getValueLoop (bytes : List Nat) (tag : Nat) : Nat → Int → Except JsError (List Nat)
  | 0, _ => .error .fuelExhausted
  | fuel + 1, i =>
      if i < (bytes.length : Int) then
        if i < 0 then .error .fuelExhausted
        else
          match readLength bytes (i.toNat + 1) with
          | .error e => .error e
          | .ok bl =>
              if bytes.getD i.toNat 0 ≠ tag then
                getValueLoop bytes tag fuel ((bl.valueOffset : Int) + bl.length)
              else
                .ok (jsSlice bytes (bl.valueOffset : Int) ((bl.valueOffset : Int) + bl.length))
      else .error .tagNotFound

/-- ber.ts getValue: scan consecutive top-level TLV entries from offset 0
and return the value slice of the first entry carrying `tag`. -/
def getValue (buffer : List Nat) (tag : Nat) : Except JsError (List Nat) :=
  getValueLoop buffer tag (buffer.length + 1) 0

/-- Big-endian value of a digit list (specification-side helper used to
state what a well-formed long-form length denotes). -/
def beVal (l : List Nat) : Nat := l.foldl (fun a b => a * 256 + b) 0

/-! ## APDU codec (apdu.ts) -/

/-- apdu.ts Instruction.Select. -/
def InstructionSelect : Nat := 0xA4

/-- apdu.ts Instruction.GetData. -/
def InstructionGetData : Nat := 0xCB

/-- apdu.ts Instruction.GetResponse. -/
def InstructionGetResponse : Nat := 0xC0

/-- apdu.ts GetDataP.CurrentDF. -/
def GetDataPCurrentDF : Nat := 0x3FFF

/-- apdu.ts GetResponseP.Unused. -/
def GetResponsePUnused : Nat := 0x00

/-- apdu.ts SW.Success. -/
def SWSuccess : Nat := 0x9000

/-- apdu.ts SW1.BytesStillAvailable. -/
def SW1BytesStillAvailable : Nat := 0x61

/-- apdu.ts TagList constant (tag-list marker of the GET DATA data field). -/
def TagListTag : Nat := 0x5C

/-- apdu.ts DiscretionaryData tag. -/
def DiscretionaryData : Nat := 0x53

/-- The parameter field of the `Command | CommandP` union of apdu.ts:
either two one-byte parameters or one two-byte big-endian parameter. -/
inductive CommandParams
  | separate (p1 p2 : Nat)
  | combined (p : Nat)
deriving DecidableEq, Repr

/-- apdu.ts Command / CommandP record. -/
structure Command where
  cla : Nat
  ins : Nat
  params : CommandParams
  data : Option (List Nat)
  ne : Option Nat
deriving DecidableEq, Repr

/-- apdu.ts Response record. -/
structure Response where
  data : Option (List Nat)
  sw : Nat
  sw1 : Nat
  sw2 : Nat
deriving DecidableEq, Repr

/-- The two parameter header bytes of serializeCommand: two setUint8
stores for the `Command` shape and one big-endian setUint16 store for the
`CommandP` shape, each reducing its value as ECMAScript does. -/
def paramsBytes : CommandParams → List Nat
  | .separate p1 p2 => [p1 % 256, p2 % 256]
  | .combined p => [p % 65536 / 256, p % 256]

/-- The optional Lc byte plus copied data bytes of serializeCommand; the
Lc setUint8 store reduces the data length mod 256 as ECMAScript does. -/
def lcDataBytes : Option (List Nat) → List Nat
  | some d => d.length % 256 :: d.map (fun x => x % 256)
  | none => []

/-- The optional Le byte of serializeCommand; the setUint8 store reduces
Ne mod 256 as ECMAScript does. -/
def leBytes : Option Nat → List Nat
  | some n => [n % 256]
  | none => []

/-- apdu.ts serializeCommand: size computation (throwing on `ne = 0`),
header, optional Lc+data, optional Le, then the final length assert. -/
def serializeCommand (c : Command) : Except JsError (List Nat) :=
  match c.ne with
  | some 0 => .error .neZero
  | _ =>
      let apduSize := 4 + (match c.data with | some d => 1 + d.length | none => 0)
                        + (match c.ne with | some _ => 1 | none => 0)
      let bytes := (c.cla % 256 :: c.ins % 256 :: paramsBytes c.params)
        ++ lcDataBytes c.data ++ leBytes c.ne
      if bytes.length = apduSize then .ok bytes else .error .assertViolation

/-- apdu.ts deserializeResponse: responses shorter than 2 bytes throw; a
2-byte response has no data; otherwise the data is everything before the
trailing status bytes, and `sw` is the big-endian 16-bit status word. -/
def deserializeResponse (buffer : List Nat) : Except JsError Response :=
  if buffer.length < 2 then .error .responseTooShort
  else
    let sw1 := buffer.getD (buffer.length - 2) 0
    let sw2 := buffer.getD (buffer.length - 1) 0
    if buffer.length = 2 then .ok ⟨none, sw1 * 256 + sw2, sw1, sw2⟩
    else .ok ⟨some (buffer.take (buffer.length - 2)), sw1 * 256 + sw2, sw1, sw2⟩

/-! ## PIV object retrieval (index.ts fetchObject) -/

/-- index.ts MAX_DATA_LENGTH. -/
def MAX_DATA_LENGTH : Nat := 70000

/-- The GET RESPONSE continuation command built at the bottom of
fetchObject's loop: `ne` is the previous response's SW2. -/
def getResponseCommand (sw2 : Nat) : Command :=
  ⟨0, InstructionGetResponse, .combined GetResponsePUnused, none, some sw2⟩

/-- The tag-list data field of fetchObject: marker byte, byte-size byte,
then the object tag serialized big-endian into the remaining cells. -/
def pivTagList (objectTag : Nat) : List Nat :=
  serializeNumber
    (TagListTag :: numberByteSize objectTag :: List.replicate (numberByteSize objectTag) 0)
    2 objectTag

/-- The initial GET DATA command of fetchObject (current-DF parameter,
tag-list data, no Ne). -/
def initialGetDataCommand (objectTag : Nat) : Command :=
  ⟨0, InstructionGetData, .combined GetDataPCurrentDF, some (pivTagList objectTag), none⟩

/-- The accumulation buffer of fetchObject: a Uint8Array of
MAX_DATA_LENGTH cells whose first `acc.length` cells hold the accumulated
data and whose remainder is still zero. -/
def fetchBuffer (acc : List Nat) : List Nat :=
  acc ++ List.replicate (MAX_DATA_LENGTH - acc.length) 0

/-- The parse phase at the end of fetchObject: length guard, discretionary
data tag check, BER length at offset 1 of the accumulation buffer, exact
span check against the accumulated count, then the value slice. -/
def parseFetched (acc : List Nat) : Except JsError (List Nat) :=
  if acc.length < 2 then .error .getDataTooShort
  else
    let bytes := fetchBuffer acc
    if bytes.getD 0 0 ≠ DiscretionaryData then .error .notDiscretionaryData
    else
      match readLength bytes 1 with
      | .error e => .error e
      | .ok bl =>
          if (bl.valueOffset : Int) + bl.length ≠ (acc.length : Int) then
            .error .badBEREncoding
          else
            .ok (jsSlice bytes (bl.valueOffset : Int) ((bl.valueOffset : Int) + bl.length))

/-- Trace bookkeeping of the loop embedding: prepend the current command
to the commands recorded by the rest of the run (the source records no
trace; this only makes the issued commands visible to the theorems). -/
def consTrace (cmd : Command) :
    Except JsError (List Command × List Nat) → Except JsError (List Command × List Nat)
  | .error e => .error e
  | .ok (cmds, res) => .ok (cmd :: cmds, res)

/-- The transmit loop of fetchObject.  Each round serializes the current
command, consumes the next scripted transport response, deserializes it,
checks the status word, requires a data payload, enforces the
MAX_DATA_LENGTH cap before copying, stops on Success, and otherwise
continues with a GET RESPONSE whose Ne is the response's SW2.  The result
also records the command objects sent, in order. -/
def fetchLoop : Command → List (List Nat) → List Nat →
    Except JsError (List Command × List Nat)
  | cmd, [], _ =>
      match serializeCommand cmd with
      | .error e => .error e
      | .ok _ => .error .transportExhausted
  | cmd, buf :: rest, acc =>
      match serializeCommand cmd with
      | .error e => .error e
      | .ok _ =>
          match deserializeResponse buf with
          | .error e => .error e
          | .ok r =>
              if r.sw ≠ SWSuccess ∧ r.sw1 ≠ SW1BytesStillAvailable then
                .error (.statusWordError r.sw)
              else
                match r.data with
                | none => .error .noData
                | some p =>
                    if MAX_DATA_LENGTH < acc.length + p.length then .error .objectTooLarge
                    else if r.sw = SWSuccess then .ok ([cmd], acc ++ p)
                    else consTrace cmd (fetchLoop (getResponseCommand r.sw2) rest (acc ++ p))

/-- index.ts fetchObject: the object-tag size assert, the GET DATA /
GET RESPONSE loop, then the parse phase on the accumulated bytes. -/
def fetchObject (objectTag : Nat) (transport : List (List Nat)) : Except JsError (List Nat) :=
  if 0 < numberByteSize objectTag ∧ numberByteSize objectTag ≤ 3 then
    match fetchLoop (initialGetDataCommand objectTag) transport [] with
    | .error e => .error e
    | .ok (_, acc) => parseFetched acc
  else .error .assertViolation

/-- The transport shape of a split delivery: each non-final response
carries its payload piece with SW1 = 0x61 and the next SW2, and the final
response carries its piece with the Success status word. -/
def mkSplit : List (List Nat) → List Nat → List (List Nat)
  | [], _ => []
  | [p], _ => [p ++ [0x90, 0x00]]
  | p :: _ :: _, [] => [p ++ [0x90, 0x00]]
  | p :: q :: ps, s :: ss => (p ++ [0x61, s]) :: mkSplit (q :: ps) ss

/-! ## Reader tracking update step (index.ts) -/

/-- The optional boolean flags of a SmartCardReaderStateFlags record as
used by index.ts (reconstructed from its uses; the typing file of the
current revision only declares shapes, no behavior). -/
structure EventState where
  ignore : Option Bool := none
  unknown : Option Bool := none
  unavailable : Option Bool := none
  empty : Option Bool := none
  present : Option Bool := none
  exclusive : Option Bool := none
  inuse : Option Bool := none
  mute : Option Bool := none
deriving DecidableEq, Repr

/-- The shapes index.ts assigns to a tracked reader's currentState: the
initial `\x7bunaware: true\x7d`, the pseudo-reader's empty record, or the
five concrete flags installed after a status-change round. -/
inductive ReaderCurrentState
  | unaware
  | blank
  | flags (empty present exclusive inuse mute : Bool)
deriving DecidableEq, Repr

/-- index.ts SmartCardReaderStateIn as built by the tracking loop. -/
structure StateIn where
  readerName : String
  currentState : ReaderCurrentState
  currentCount : Option Nat := none
deriving DecidableEq, Repr

/-- index.ts SmartCardReaderStateOut as consumed by the tracking loop. -/
structure StateOut where
  readerName : String
  eventState : EventState
  eventCount : Nat
deriving DecidableEq, Repr

/-- JavaScript truthiness of an optional boolean, as in the
`x ? x : false` defaulting of index.ts. -/
def jsTruthy : Option Bool → Bool
  | some b => b
  | none => false

/-- index.ts removeStateInWithName: findIndex on the reader name and
splice of the first hit; no hit leaves the list unchanged. -/
def removeStateInWithName (l : List StateIn) (readerName : String) : List StateIn :=
  match l with
  | [] => []
  | s :: rest =>
      if s.readerName = readerName then rest
      else s :: removeStateInWithName rest readerName

/-- The non-removal branch of updateReaderStatesIn's forEach body:
`find` the tracked entry of the reported name (asserting it exists) and
overwrite its five flags (truthiness-defaulted) and event counter. -/
def overwriteFirstStateIn (o : StateOut) : List StateIn → Except JsError (List StateIn)
  | [] => .error .assertViolation
  | s :: rest =>
      if s.readerName = o.readerName then
        .ok ({ readerName := s.readerName,
               currentState := .flags (jsTruthy o.eventState.empty)
                 (jsTruthy o.eventState.present) (jsTruthy o.eventState.exclusive)
                 (jsTruthy o.eventState.inuse) (jsTruthy o.eventState.mute),
               currentCount := some o.eventCount } :: rest)
      else
        match overwriteFirstStateIn o rest with
        | .error e => .error e
        | .ok l => .ok (s :: l)

/-- One iteration of updateReaderStatesIn's forEach: unknown/unavailable
readers are removed from the tracked list, all others are overwritten in
place. -/
def applyStateOut (l : List StateIn) (o : StateOut) : Except JsError (List StateIn) :=
  if o.eventState.unknown = some true ∨ o.eventState.unavailable = some true then
    .ok (removeStateInWithName l o.readerName)
  else overwriteFirstStateIn o l

/-- index.ts updateReaderStatesIn: fold applyStateOut over the reported
status-change output in order (a thrown assert aborts the whole update,
as the forEach does). -/
def updateReaderStatesIn (l : List StateIn) (outs : List StateOut) :
    Except JsError (List StateIn) :=
  match outs with
  | [] => .ok l
  | o :: rest =>
      match applyStateOut l o with
      | .error e => .error e
      | .ok l2 => updateReaderStatesIn l2 rest

/-! ## Helper lemmas: JavaScript 32-bit arithmetic -/

theorem jsShl_small {b s : Nat} (hs : s < 32) (hb : b <<< s < 4294967296) :
    jsShl b s = b <<< s := by
  unfold jsShl
  rw [Nat.mod_eq_of_lt hs, Nat.mod_eq_of_lt hb]

theorem shiftLeft_lt_of_byte {b : Nat} (hb : b < 256) {s : Nat} (hs : s ≤ 24) :
    b <<< s < 4294967296 := by
  rw [Nat.shiftLeft_eq]
  calc b * 2 ^ s < 256 * 2 ^ s := by
        exact Nat.mul_lt_mul_of_lt_of_le hb (Nat.le_refl _) (Nat.two_pow_pos s)
    _ ≤ 256 * 2 ^ 24 := by
        exact Nat.mul_le_mul_left _ (Nat.pow_le_pow_right (by norm_num) hs)
    _ = 4294967296 := by norm_num

theorem or_shiftLeft_add {a b k : Nat} (hb : b < 2 ^ k) :
    (a <<< k) ||| b = 2 ^ k * a + b := by
  rw [Nat.shiftLeft_eq, Nat.mul_comm]
  exact (Nat.mul_add_lt_is_or hb a).symm

theorem toInt32_small {p : Nat} (hp : p < 2147483648) :
    toInt32 p = (p : Int) := by
  have h32 : p < 4294967296 := by omega
  unfold toInt32
  rw [Nat.mod_eq_of_lt h32]
  simp [hp]

theorem land_255_eq_mod (x : Nat) : x &&& 255 = x % 256 := by
  have h : (255 : Nat) = 2 ^ 8 - 1 := by norm_num
  rw [h, Nat.and_pow_two_sub_one_eq_mod]

/-! ## Helper lemmas: numberByteSize -/

theorem numberByteSize_eq (v : Nat) :
    numberByteSize v = if v = 0 then 0 else numberByteSize (v >>> 8) + 1 := by
  rw [numberByteSize]

theorem numberByteSize_zero : numberByteSize 0 = 0 := by
  rw [numberByteSize_eq]
  simp

theorem numberByteSize_pos {v : Nat} (h : 0 < v) : 0 < numberByteSize v := by
  rw [numberByteSize_eq]
  simp [Nat.pos_iff_ne_zero.mp h]

theorem numberByteSize_le {k : Nat} : ∀ {v : Nat}, v < 2 ^ (8 * k) → numberByteSize v ≤ k := by
  induction k with
  | zero =>
      intro v hv
      interval_cases v
      simp [numberByteSize_zero]
  | succ k ih =>
      intro v hv
      by_cases h0 : v = 0
      · simp [h0, numberByteSize_zero]
      · rw [numberByteSize_eq]
        simp only [h0, if_false]
        have hdiv : v >>> 8 < 2 ^ (8 * k) := by
          rw [Nat.shiftRight_eq_div_pow]
          have : v < 2 ^ 8 * 2 ^ (8 * k) := by
            rw [← Nat.pow_add]
            have : 8 + 8 * k = 8 * (k + 1) := by ring
            rw [this]
            exact hv
          exact Nat.div_lt_of_lt_mul this
        exact Nat.succ_le_succ (ih hdiv)

theorem lt_two_pow_numberByteSize : ∀ v : Nat, v < 2 ^ (8 * numberByteSize v) := by
  intro v
  induction v using Nat.strong_induction_on with
  | _ v ih =>
      by_cases h0 : v = 0
      · simp [h0, numberByteSize_zero]
      · rw [numberByteSize_eq]
        simp only [h0, if_false]
        have hlt : v >>> 8 < v := by
          rw [Nat.shiftRight_eq_div_pow]
          exact Nat.div_lt_self (Nat.pos_of_ne_zero h0) (by norm_num)
        have hrec := ih (v >>> 8) hlt
        rw [Nat.shiftRight_eq_div_pow] at hrec
        have hexp : 8 * (numberByteSize (v >>> 8) + 1)
            = 8 * numberByteSize (v >>> 8) + 8 := by ring
        rw [hexp, Nat.pow_add]
        rw [Nat.shiftRight_eq_div_pow] at *
        have hmod := Nat.div_add_mod v (2 ^ 8)
        have hm : v % 2 ^ 8 < 2 ^ 8 := Nat.mod_lt _ (by norm_num)
        nlinarith [hrec, hm, hmod]

/-! ## Helper lemmas: list access -/

theorem getD_drop (l : List Nat) (off j : Nat) :
    (l.drop off).getD j 0 = l.getD (off + j) 0 := by
  induction l generalizing off with
  | nil => simp
  | cons x xs ih =>
      cases off with
      | zero => simp
      | succ k =>
          simp only [List.drop_succ_cons]
          rw [ih]
          have h : k + 1 + j = (k + j) + 1 := by ring
          rw [h]
          simp

theorem drop_eq_getD_cons {l : List Nat} {off : Nat} (h : off < l.length) :
    l.drop off = l.getD off 0 :: l.drop (off + 1) := by
  rw [List.drop_eq_getElem_cons h, List.getD_eq_getElem _ _ h]

/-! ## Helper lemmas: serializeNumber -/

theorem serializeNumberAux_length (n : Nat) :
    ∀ (d i : Nat) (bytes : List Nat), (serializeNumberAux n i d bytes).length = bytes.length := by
  intro d
  induction d with
  | zero => intro i bytes; rfl
  | succ d ih =>
      intro i bytes
      rw [serializeNumberAux, ih]
      unfold setByte
      by_cases h : i < bytes.length <;> simp [h]

theorem setByte_getD_ne (bytes : List Nat) (i v j : Nat) (h : j ≠ i) :
    (setByte bytes i v).getD j 0 = bytes.getD j 0 := by
  unfold setByte
  by_cases hi : i < bytes.length
  · simp only [hi, if_true, List.getD_eq_getElem?_getD]
    rw [List.getElem?_set_ne (fun hc => h hc.symm)]
  · simp [hi]

theorem setByte_getD_self (bytes : List Nat) (i v : Nat) (h : i < bytes.length) :
    (setByte bytes i v).getD i 0 = v % 256 := by
  unfold setByte
  simp only [h, if_true, List.getD_eq_getElem?_getD]
  rw [List.getElem?_set_self (by simpa using h)]
  simp

theorem serializeNumberAux_getD_out (n : Nat) :
    ∀ (d i j : Nat) (bytes : List Nat), (j < i ∨ i + d ≤ j) →
      (serializeNumberAux n i d bytes).getD j 0 = bytes.getD j 0 := by
  intro d
  induction d with
  | zero => intro i j bytes _; rfl
  | succ d ih =>
      intro i j bytes hj
      rw [serializeNumberAux]
      rw [ih _ _ _ (by omega)]
      exact setByte_getD_ne _ _ _ _ (by omega)

theorem serializeNumberAux_getD_in (n : Nat) :
    ∀ (d i j : Nat) (bytes : List Nat), i ≤ j → j < i + d → i + d ≤ bytes.length →
      (serializeNumberAux n i d bytes).getD j 0 = (n >>> (8 * (i + d - 1 - j))) % 256 := by
  intro d
  induction d with
  | zero => intro i j bytes h1 h2 _; omega
  | succ d ih =>
      intro i j bytes h1 h2 hlen
      rw [serializeNumberAux]
      by_cases hji : j = i
      · subst hji
        rw [serializeNumberAux_getD_out n d (j + 1) j _ (by omega)]
        rw [setByte_getD_self _ _ _ (by omega)]
        rw [land_255_eq_mod]
        have he : j + (d + 1) - 1 - j = d := by omega
        rw [he]
        omega
      · have hlen2 : (i + 1) + d ≤ (setByte bytes i ((n >>> (8 * d)) &&& 0xFF)).length := by
          unfold setByte
          by_cases h : i < bytes.length <;> simp [h] <;> omega
        rw [ih (i + 1) j _ (by omega) (by omega) hlen2]
        congr 3
        omega

/-! ## Helper lemmas: deserializeNumber on at most four bytes -/

theorem jsShl_byte_24 {b : Nat} (hb : b < 256) : jsShl b 24 = b <<< 24 :=
  jsShl_small (by norm_num) (shiftLeft_lt_of_byte hb (by norm_num))

theorem jsShl_byte_16 {b : Nat} (hb : b < 256) : jsShl b 16 = b <<< 16 :=
  jsShl_small (by norm_num) (shiftLeft_lt_of_byte hb (by norm_num))

theorem jsShl_byte_8 {b : Nat} (hb : b < 256) : jsShl b 8 = b <<< 8 :=
  jsShl_small (by norm_num) (shiftLeft_lt_of_byte hb (by norm_num))

theorem jsShl_byte_0 {b : Nat} (hb : b < 256) : jsShl b 0 = b := by
  rw [jsShl_small (by norm_num) (shiftLeft_lt_of_byte hb (by norm_num))]
  exact Nat.shiftLeft_zero

theorem bytes_or_value2 {b0 b1 : Nat} (h0 : b0 < 256) (h1 : b1 < 256) :
    (b0 <<< 8) ||| b1 = b0 * 256 + b1 := by
  rw [or_shiftLeft_add (show b1 < 2 ^ 8 by norm_num; omega)]
  ring

theorem bytes_or_value3 {b0 b1 b2 : Nat} (h0 : b0 < 256) (h1 : b1 < 256) (h2 : b2 < 256) :
    ((b0 <<< 16) ||| (b1 <<< 8)) ||| b2 = (b0 * 256 + b1) * 256 + b2 := by
  rw [Nat.or_assoc, bytes_or_value2 h1 h2]
  rw [or_shiftLeft_add (show b1 * 256 + b2 < 2 ^ 16 by norm_num; omega)]
  ring

theorem bytes_or_value4 {b0 b1 b2 b3 : Nat}
    (h0 : b0 < 256) (h1 : b1 < 256) (h2 : b2 < 256) (h3 : b3 < 256) :
    (((b0 <<< 24) ||| (b1 <<< 16)) ||| (b2 <<< 8)) ||| b3
      = ((b0 * 256 + b1) * 256 + b2) * 256 + b3 := by
  rw [Nat.or_assoc, Nat.or_assoc, bytes_or_value2 h2 h3]
  rw [or_shiftLeft_add (show b2 * 256 + b3 < 2 ^ 16 by norm_num; omega)]
  rw [or_shiftLeft_add (show 2 ^ 16 * b1 + (b2 * 256 + b3) < 2 ^ 24 by norm_num; omega)]
  ring

theorem take_drop_range (bytes : List Nat) :
    ∀ (k off : Nat), off + k ≤ bytes.length →
      (bytes.drop off).take k = (List.range k).map (fun j => bytes.getD (off + j) 0) := by
  intro k
  induction k with
  | zero => intro off _; simp
  | succ k ih =>
      intro off hlen
      rw [drop_eq_getD_cons (by omega), List.take_succ_cons]
      rw [ih (off + 1) (by omega)]
      rw [List.range_succ_eq_map]
      simp only [List.map_cons, List.map_map]
      congr 1
      apply List.map_congr_left
      intro a _
      show bytes.getD (off + 1 + a) 0 = bytes.getD (off + (a + 1)) 0
      have h : off + 1 + a = off + (a + 1) := by omega
      rw [h]

theorem deserializeNumberAux_one (bytes : List Nat) (off : Nat) :
    deserializeNumberAux bytes off 1 1 0 = 0 ||| jsShl (bytes.getD (off + 0) 0) 0 := rfl

theorem deserializeNumberAux_two (bytes : List Nat) (off : Nat) :
    deserializeNumberAux bytes off 2 2 0 =
      (0 ||| jsShl (bytes.getD (off + 0) 0) 8) ||| jsShl (bytes.getD (off + 1) 0) 0 := rfl

theorem deserializeNumberAux_three (bytes : List Nat) (off : Nat) :
    deserializeNumberAux bytes off 3 3 0 =
      ((0 ||| jsShl (bytes.getD (off + 0) 0) 16) ||| jsShl (bytes.getD (off + 1) 0) 8)
        ||| jsShl (bytes.getD (off + 2) 0) 0 := rfl

theorem deserializeNumberAux_four (bytes : List Nat) (off : Nat) :
    deserializeNumberAux bytes off 4 4 0 =
      (((0 ||| jsShl (bytes.getD (off + 0) 0) 24) ||| jsShl (bytes.getD (off + 1) 0) 16)
        ||| jsShl (bytes.getD (off + 2) 0) 8) ||| jsShl (bytes.getD (off + 3) 0) 0 := rfl

theorem deserializeNumberAux_beVal (bytes : List Nat) (off k : Nat)
    (hk1 : 1 ≤ k) (hk4 : k ≤ 4)
    (hbytes : ∀ j, j < k → bytes.getD (off + j) 0 < 256) :
    deserializeNumberAux bytes off k k 0
      = beVal ((List.range k).map (fun j => bytes.getD (off + j) 0)) := by
  interval_cases k
  · have h0 := hbytes 0 (by norm_num)
    rw [deserializeNumberAux_one, Nat.zero_or, jsShl_byte_0 h0]
    simp [beVal, show List.range 1 = [0] from rfl]
  · have h0 := hbytes 0 (by norm_num)
    have h1 := hbytes 1 (by norm_num)
    rw [deserializeNumberAux_two, Nat.zero_or, jsShl_byte_8 h0, jsShl_byte_0 h1]
    rw [bytes_or_value2 h0 h1]
    simp [beVal, show List.range 2 = [0, 1] from rfl]
  · have h0 := hbytes 0 (by norm_num)
    have h1 := hbytes 1 (by norm_num)
    have h2 := hbytes 2 (by norm_num)
    rw [deserializeNumberAux_three, Nat.zero_or, jsShl_byte_16 h0, jsShl_byte_8 h1,
      jsShl_byte_0 h2]
    rw [bytes_or_value3 h0 h1 h2]
    simp [beVal, show List.range 3 = [0, 1, 2] from rfl]
  · have h0 := hbytes 0 (by norm_num)
    have h1 := hbytes 1 (by norm_num)
    have h2 := hbytes 2 (by norm_num)
    have h3 := hbytes 3 (by norm_num)
    rw [deserializeNumberAux_four, Nat.zero_or, jsShl_byte_24 h0, jsShl_byte_16 h1,
      jsShl_byte_8 h2, jsShl_byte_0 h3]
    rw [bytes_or_value4 h0 h1 h2 h3]
    simp [beVal, show List.range 4 = [0, 1, 2, 3] from rfl]

theorem deserializeNumber_beVal (bytes : List Nat) (off k : Nat)
    (hk1 : 1 ≤ k) (hk4 : k ≤ 4) (hlen : off + k ≤ bytes.length)
    (hbytes : ∀ j, j < k → bytes.getD (off + j) 0 < 256)
    (hval : beVal ((bytes.drop off).take k) < 2147483648) :
    deserializeNumber bytes off k = .ok ((beVal ((bytes.drop off).take k) : Nat) : Int) := by
  have hw := take_drop_range bytes k off hlen
  unfold deserializeNumber
  have hcond : off < bytes.length ∧ 0 < k ∧ off + k ≤ bytes.length := by omega
  rw [if_pos hcond]
  rw [deserializeNumberAux_beVal bytes off k hk1 hk4 hbytes, ← hw]
  rw [toInt32_small hval]

/-! ## Helper lemmas: digit recomposition -/

theorem beVal_digits (n w : Nat) (hw1 : 1 ≤ w) (hw4 : w ≤ 4) (hn : n < 2 ^ (8 * w)) :
    beVal ((List.range w).map (fun j => (n >>> (8 * (w - 1 - j))) % 256)) = n := by
  interval_cases w
  · simp only [show List.range 1 = [0] from rfl, List.map_cons, List.map_nil]
    norm_num [beVal, Nat.shiftRight_eq_div_pow]
    omega
  · simp only [show List.range 2 = [0, 1] from rfl, List.map_cons, List.map_nil]
    norm_num [beVal, Nat.shiftRight_eq_div_pow]
    omega
  · simp only [show List.range 3 = [0, 1, 2] from rfl, List.map_cons, List.map_nil]
    norm_num [beVal, Nat.shiftRight_eq_div_pow]
    omega
  · simp only [show List.range 4 = [0, 1, 2, 3] from rfl, List.map_cons, List.map_nil]
    norm_num [beVal, Nat.shiftRight_eq_div_pow]
    omega

/-- C10: serializeNumber writes exactly the numberByteSize digits at the
given offset and deserializeNumber reads the same number back. -/
theorem claim_C10_number_roundtrip (bytes : List Nat) (o n : Nat)
    (hn1 : 1 ≤ n) (hn2 : n < 2147483648)
    (hroom : o + numberByteSize n ≤ bytes.length) :
    (serializeNumber bytes o n).length = bytes.length ∧
    (∀ j, j < o ∨ o + numberByteSize n ≤ j →
      (serializeNumber bytes o n).getD j 0 = bytes.getD j 0) ∧
    deserializeNumber (serializeNumber bytes o n) o (numberByteSize n) = .ok ((n : Nat) : Int) := by
  have hw1 : 1 ≤ numberByteSize n := numberByteSize_pos (by omega)
  have hw4 : numberByteSize n ≤ 4 := numberByteSize_le (by norm_num; omega)
  have hlen : (serializeNumber bytes o n).length = bytes.length :=
    serializeNumberAux_length n _ _ _
  have hdig : ∀ j, j < numberByteSize n →
      (serializeNumber bytes o n).getD (o + j) 0
        = (n >>> (8 * (numberByteSize n - 1 - j))) % 256 := by
    intro j hj
    unfold serializeNumber
    rw [serializeNumberAux_getD_in n (numberByteSize n) o (o + j) bytes
      (by omega) (by omega) hroom]
    congr 3
    omega
  refine ⟨hlen, fun j hj => serializeNumberAux_getD_out n _ o j bytes hj, ?_⟩
  have hwv : beVal (((serializeNumber bytes o n).drop o).take (numberByteSize n)) = n := by
    rw [take_drop_range _ (numberByteSize n) o (by omega)]
    have hmap : (List.range (numberByteSize n)).map
          (fun j => (serializeNumber bytes o n).getD (o + j) 0)
        = (List.range (numberByteSize n)).map
          (fun j => (n >>> (8 * (numberByteSize n - 1 - j))) % 256) := by
      apply List.map_congr_left
      intro a ha
      exact hdig a (List.mem_range.mp ha)
    rw [hmap]
    exact beVal_digits n _ hw1 hw4 (lt_two_pow_numberByteSize n)
  have h := deserializeNumber_beVal (serializeNumber bytes o n) o (numberByteSize n)
    hw1 hw4 (by omega)
    (fun j hj => by rw [hdig j hj]; exact Nat.mod_lt _ (by norm_num))
    (by rw [hwv]; omega)
  rw [hwv] at h
  exact h

/-- Concrete evaluation of numberByteSize at 300 (the witness value). -/
theorem numberByteSize_300 : numberByteSize 300 = 2 := by
  rw [numberByteSize_eq]
  norm_num
  rw [show (300 : Nat) >>> 8 = 1 from by decide, numberByteSize_eq]
  norm_num
  rw [show (1 : Nat) >>> 8 = 0 from by decide, numberByteSize_eq]
  norm_num

/-! ## readLength case analysis (claims C6 and C8) -/

theorem land_127_eq_mod (x : Nat) : x &&& 127 = x % 128 := by
  have h : (127 : Nat) = 2 ^ 7 - 1 := by norm_num
  rw [h, Nat.and_pow_two_sub_one_eq_mod]

theorem readLength_short {bytes : List Nat} {off : Nat} (hoff : off < bytes.length)
    (hb : bytes.getD off 0 < 128) :
    readLength bytes off = .ok ⟨(bytes.getD off 0 : Int), off + 1⟩ := by
  unfold readLength
  rw [if_pos hoff, if_pos hb]

theorem readLength_indefinite {bytes : List Nat} {off : Nat} (hoff : off < bytes.length)
    (hb : bytes.getD off 0 = 128) :
    readLength bytes off = .ok ⟨(bytes.length : Int) - (off + 1) - 2, off + 1⟩ := by
  unfold readLength
  rw [if_pos hoff, if_neg (by omega), if_pos hb]

theorem readLength_long {bytes : List Nat} {off k : Nat} (hoff : off < bytes.length)
    (hb : bytes.getD off 0 = 128 + k) (hk1 : 1 ≤ k) (hk4 : k ≤ 4)
    (hroom : off + 1 + k ≤ bytes.length)
    (hbytes : ∀ j, j < k → bytes.getD (off + 1 + j) 0 < 256)
    (hval : beVal ((bytes.drop (off + 1)).take k) < 2147483648) :
    readLength bytes off
      = .ok ⟨((beVal ((bytes.drop (off + 1)).take k) : Nat) : Int), off + 1 + k⟩ := by
  unfold readLength
  rw [if_pos hoff, if_neg (by omega), if_neg (by omega)]
  have hwidth : bytes.getD off 0 &&& 127 = k := by
    rw [land_127_eq_mod, hb]
    omega
  show Except.map (fun n => BERLength.mk n (off + 1 + (bytes.getD off 0 &&& 127)))
      (deserializeNumber bytes (off + 1) (bytes.getD off 0 &&& 127)) = _
  rw [hwidth, deserializeNumber_beVal bytes (off + 1) k hk1 hk4 (by omega) hbytes hval]
  rfl

/-- C6 (amended): readLength satisfies the three-case definition, with the
long form restricted to at most four length bytes denoting a value below
2^31 — beyond that the JavaScript 32-bit shift-and-or reads wrap. -/
theorem claim_C6_readLength_cases (bytes : List Nat) (off : Nat) (hoff : off < bytes.length) :
    (bytes.getD off 0 < 128 →
      readLength bytes off = .ok ⟨(bytes.getD off 0 : Int), off + 1⟩) ∧
    (bytes.getD off 0 = 128 →
      readLength bytes off = .ok ⟨(bytes.length : Int) - (off + 1) - 2, off + 1⟩) ∧
    (∀ k, bytes.getD off 0 = 128 + k → 1 ≤ k → k ≤ 4 →
      off + 1 + k ≤ bytes.length →
      (∀ j, j < k → bytes.getD (off + 1 + j) 0 < 256) →
      beVal ((bytes.drop (off + 1)).take k) < 2147483648 →
      readLength bytes off
        = .ok ⟨((beVal ((bytes.drop (off + 1)).take k) : Nat) : Int), off + 1 + k⟩) :=
  ⟨fun hb => readLength_short hoff hb,
   fun hb => readLength_indefinite hoff hb,
   fun _ hb hk1 hk4 hroom hbytes hval => readLength_long hoff hb hk1 hk4 hroom hbytes hval⟩

/-- Counterexample to C6 as stated: a long form with four length bytes
whose big-endian value is 2^31 is read back as the wrapped signed value
-2^31, not as the big-endian length. -/
theorem claim_C6_counterexample :
    readLength [132, 128, 0, 0, 0] 0 = .ok ⟨(-2147483648 : Int), 5⟩ ∧
    ((-2147483648 : Int) ≠ ((beVal [128, 0, 0, 0] : Nat) : Int)) := by
  constructor
  · decide
  · decide

/-- Witness for the amended C6 on a two-byte buffer headed by 129 (the
long form with one length byte named by the spec). -/
theorem claim_C6_readLength_cases_witness :
    0 < ([129, 200] : List Nat).length ∧
    ((([129, 200] : List Nat).getD 0 0 < 128 →
      readLength [129, 200] 0 = .ok ⟨(([129, 200] : List Nat).getD 0 0 : Int), 0 + 1⟩) ∧
     (([129, 200] : List Nat).getD 0 0 = 128 →
      readLength [129, 200] 0 = .ok ⟨(([129, 200] : List Nat).length : Int) - (0 + 1) - 2, 0 + 1⟩) ∧
     (∀ k, ([129, 200] : List Nat).getD 0 0 = 128 + k → 1 ≤ k → k ≤ 4 →
      0 + 1 + k ≤ ([129, 200] : List Nat).length →
      (∀ j, j < k → ([129, 200] : List Nat).getD (0 + 1 + j) 0 < 256) →
      beVal ((([129, 200] : List Nat).drop (0 + 1)).take k) < 2147483648 →
      readLength [129, 200] 0
        = .ok ⟨((beVal ((([129, 200] : List Nat).drop (0 + 1)).take k) : Nat) : Int), 0 + 1 + k⟩)) :=
  ⟨by norm_num, claim_C6_readLength_cases [129, 200] 0 (by norm_num)⟩

theorem take_drop_sub (l : List Nat) (a b : Nat) :
    ∃ pre post, pre ++ ((l.take a).drop b) ++ post = l :=
  ⟨(l.take a).take b, l.drop a, by
    rw [List.take_append_drop, List.take_append_drop]⟩

theorem jsSlice_sub (l : List Nat) (s e : Int) :
    ∃ pre post, pre ++ jsSlice l s e ++ post = l :=
  take_drop_sub l _ _

theorem getValueLoop_ok_sub (bytes : List Nat) (tag : Nat) :
    ∀ (fuel : Nat) (i : Int) (v : List Nat),
      getValueLoop bytes tag fuel i = .ok v → ∃ pre post, pre ++ v ++ post = bytes := by
  intro fuel
  induction fuel with
  | zero => intro i v h; exact absurd h (by simp [getValueLoop])
  | succ fuel ih =>
      intro i v h
      unfold getValueLoop at h
      by_cases h1 : i < (bytes.length : Int)
      · rw [if_pos h1] at h
        by_cases h2 : i < 0
        · rw [if_pos h2] at h
          exact absurd h (by simp)
        · rw [if_neg h2] at h
          split at h
          · simp at h
          · split at h
            · exact ih _ _ h
            · cases h
              exact jsSlice_sub _ _ _
      · rw [if_neg h1] at h
        exact absurd h (by simp)

/-- C8 (amended): readLength itself never checks the buffer bound — the
decoded span can overrun the buffer (see the counterexample) — but the
invariant does hold unconditionally for the indefinite form, and every
value slice getValue returns is a contiguous segment of its buffer, since
the JavaScript slice clamps to the buffer. -/
theorem claim_C8_decoded_span (bytes : List Nat) (off : Nat) :
    (off < bytes.length → bytes.getD off 0 = 128 →
      ∃ bl, readLength bytes off = .ok bl ∧
        (bl.valueOffset : Int) + bl.length ≤ (bytes.length : Int)) ∧
    (∀ tag v, getValue bytes tag = .ok v → ∃ pre post, pre ++ v ++ post = bytes) := by
  constructor
  · intro hoff hb
    refine ⟨_, readLength_indefinite hoff hb, ?_⟩
    push_cast
    omega
  · intro tag v h
    exact getValueLoop_ok_sub bytes tag _ _ v h

/-- Counterexample to C8 as stated: on the two-byte buffer 81 FF the
decoder returns valueOffset 2 and length 255, whose sum exceeds the
buffer size 2. -/
theorem claim_C8_counterexample :
    readLength [129, 255] 0 = .ok ⟨(255 : Int), 2⟩ ∧
    ¬(((2 : Nat) : Int) + 255 ≤ (([129, 255] : List Nat).length : Int)) := by
  constructor
  · decide
  · decide

/-- Witness for the amended C8 on the indefinite form and a found tag. -/
theorem claim_C8_decoded_span_witness :
    (0 < ([128, 7, 0, 0] : List Nat).length ∧ ([128, 7, 0, 0] : List Nat).getD 0 0 = 128) ∧
    ((0 < ([128, 7, 0, 0] : List Nat).length → ([128, 7, 0, 0] : List Nat).getD 0 0 = 128 →
      ∃ bl, readLength [128, 7, 0, 0] 0 = .ok bl ∧
        (bl.valueOffset : Int) + bl.length ≤ (([128, 7, 0, 0] : List Nat).length : Int)) ∧
     (∀ tag v, getValue [128, 7, 0, 0] tag = .ok v →
      ∃ pre post, pre ++ v ++ post = [128, 7, 0, 0])) :=
  ⟨⟨by norm_num, by norm_num⟩, claim_C8_decoded_span [128, 7, 0, 0] 0⟩

/-! ## getValue over well-formed TLV sequences (claim C7) -/

/-- Position-independent definite-form BER length encodings: a short-form
byte, or a long form of one to four big-endian bytes denoting a value
below 2^31 (the range on which readLength decodes faithfully). -/
def IsDefLenEnc (lb : List Nat) (n : Nat) : Prop :=
  (n < 128 ∧ lb = [n]) ∨
  (∃ k bs, 1 ≤ k ∧ k ≤ 4 ∧ bs.length = k ∧ (∀ b ∈ bs, b < 256) ∧
    beVal bs = n ∧ n < 2147483648 ∧ lb = (128 + k) :: bs)

/-- A buffer consisting of zero or more consecutive well-formed top-level
TLV entries, together with the tag/value decomposition it encodes. -/
inductive WfTLVs : List Nat → List (Nat × List Nat) → Prop
  | nil : WfTLVs [] []
  | cons (t : Nat) (lb v rest : List Nat) (es : List (Nat × List Nat)) :
      IsDefLenEnc lb v.length → WfTLVs rest es →
      WfTLVs (t :: (lb ++ v ++ rest)) ((t, v) :: es)

/-- The value of the first entry with the wanted tag. -/
def entryLookup (es : List (Nat × List Nat)) (tag : Nat) : Option (List Nat) :=
  (es.find? (fun e => e.1 == tag)).map (fun e => e.2)

theorem getD_append_offset (pre rest : List Nat) (j : Nat) :
    (pre ++ rest).getD (pre.length + j) 0 = rest.getD j 0 := by
  rw [List.getD_append_right _ _ _ _ (by omega)]
  congr 1
  omega

theorem WfTLVs_entries_le {buffer : List Nat} {es : List (Nat × List Nat)}
    (h : WfTLVs buffer es) : es.length ≤ buffer.length := by
  induction h with
  | nil => simp
  | cons t lb v rest es henc hrest ih =>
      simp only [List.length_cons, List.length_append]
      omega

theorem IsDefLenEnc_length_pos {lb : List Nat} {n : Nat} (h : IsDefLenEnc lb n) :
    1 ≤ lb.length := by
  rcases h with ⟨_, rfl⟩ | ⟨k, bs, _, _, _, _, _, _, rfl⟩ <;> simp

theorem getD_append_head (pre rest : List Nat) :
    (pre ++ rest).getD pre.length 0 = rest.getD 0 0 := by
  have h := getD_append_offset pre rest 0
  simpa using h

theorem readLength_at_enc (A lb tail : List Nat) (n : Nat) (henc : IsDefLenEnc lb n) :
    readLength (A ++ (lb ++ tail)) A.length = .ok ⟨(n : Int), A.length + lb.length⟩ := by
  rcases henc with ⟨hlt, rfl⟩ | ⟨k, bs, hk1, hk4, hbs, hbytes, hval, hvlt, rfl⟩
  · have hoff : A.length < (A ++ ([n] ++ tail)).length := by
      simp only [List.length_append, List.length_cons]
      omega
    have hget : (A ++ ([n] ++ tail)).getD A.length 0 = n := by
      rw [getD_append_head]
      simp
    rw [readLength_short hoff (by rw [hget]; exact hlt), hget]
    rfl
  · have hcons : ((128 + k) :: bs) ++ tail = (128 + k) :: (bs ++ tail) := by simp
    have hshape : A ++ (((128 + k) :: bs) ++ tail) = (A ++ [128 + k]) ++ (bs ++ tail) := by
      simp
    have hoff : A.length < (A ++ (((128 + k) :: bs) ++ tail)).length := by
      simp only [List.length_append, List.length_cons]
      omega
    have hget : (A ++ (((128 + k) :: bs) ++ tail)).getD A.length 0 = 128 + k := by
      rw [getD_append_head, hcons]
      simp
    have hbget : ∀ j, j < k →
        (A ++ (((128 + k) :: bs) ++ tail)).getD (A.length + 1 + j) 0 = bs.getD j 0 := by
      intro j hj
      have h1 : A.length + 1 + j = A.length + (1 + j) := by omega
      rw [h1, getD_append_offset, hcons]
      rw [show (1 + j) = j + 1 from by omega]
      rw [List.getD_cons_succ]
      exact List.getD_append _ _ _ _ (by omega)
    have hwindow : ((A ++ (((128 + k) :: bs) ++ tail)).drop (A.length + 1)).take k = bs := by
      rw [hshape, List.drop_left' (show (A ++ [128 + k]).length = A.length + 1 from by simp)]
      exact List.take_left' hbs
    have hres := readLength_long (k := k) hoff hget hk1 hk4
      (by simp only [List.length_append, List.length_cons]; omega)
      (fun j hj => by
        rw [hbget j hj]
        have hjb : j < bs.length := by omega
        rw [List.getD_eq_getElem _ _ hjb]
        exact hbytes _ (List.getElem_mem hjb))
      (by rw [hwindow, hval]; exact hvlt)
    rw [hres, hwindow, hval]
    have hlen2 : A.length + ((128 + k) :: bs).length = A.length + 1 + k := by
      simp only [List.length_cons, hbs]
      omega
    rw [hlen2]

theorem jsSlice_nonneg (l : List Nat) (s e : Int) (hs : 0 ≤ s) (hsl : s ≤ (l.length : Int))
    (he : 0 ≤ e) (hel : e ≤ (l.length : Int)) :
    jsSlice l s e = (l.take e.toNat).drop s.toNat := by
  unfold jsSlice
  rw [if_neg (by omega), if_neg (by omega), min_eq_left hsl, min_eq_left hel]

theorem getD_cast_nonneg (pre : List Nat) : ¬((pre.length : Int) < 0) := by
  omega

theorem jsSlice_exact (A v B : List Nat) :
    jsSlice (A ++ (v ++ B)) (A.length : Int) ((A.length : Int) + (v.length : Int)) = v := by
  have hlen : (A ++ (v ++ B)).length = A.length + v.length + B.length := by
    simp only [List.length_append]
    omega
  rw [jsSlice_nonneg _ _ _ (by positivity) (by rw [hlen]; push_cast; omega)
    (by positivity) (by rw [hlen]; push_cast; omega)]
  have he : ((A.length : Int) + (v.length : Int)).toNat = A.length + v.length := by
    omega
  rw [he, Int.toNat_ofNat]
  have hshape : A ++ (v ++ B) = (A ++ v) ++ B := by simp
  rw [hshape, List.take_left' (by simp), List.drop_left]

theorem getValueLoop_wf (tag : Nat) {tail : List Nat} {es : List (Nat × List Nat)}
    (hwf : WfTLVs tail es) :
    ∀ (pre : List Nat) (fuel : Nat), es.length + 1 ≤ fuel →
      getValueLoop (pre ++ tail) tag fuel (pre.length : Int)
        = match entryLookup es tag with
          | some v => .ok v
          | none => .error .tagNotFound := by
  induction hwf with
  | nil =>
      intro pre fuel hfuel
      obtain ⟨f, rfl⟩ : ∃ f, fuel = f + 1 := ⟨fuel - 1, by omega⟩
      unfold getValueLoop
      rw [if_neg (by simp)]
      rfl
  | cons t lb v rest es henc hrest ih =>
      intro pre fuel hfuel
      obtain ⟨f, rfl⟩ : ∃ f, fuel = f + 1 := ⟨fuel - 1, by omega⟩
      simp only [List.length_cons] at hfuel
      have hshape1 : pre ++ (t :: (lb ++ v ++ rest))
          = (pre ++ [t]) ++ (lb ++ (v ++ rest)) := by simp
      have hlen : (pre ++ (t :: (lb ++ v ++ rest))).length
          = pre.length + 1 + lb.length + v.length + rest.length := by
        simp only [List.length_append, List.length_cons]
        omega
      unfold getValueLoop
      rw [if_pos (by rw [hlen]; push_cast; omega), if_neg (getD_cast_nonneg pre)]
      rw [Int.toNat_ofNat]
      have hread : readLength (pre ++ (t :: (lb ++ v ++ rest))) (pre.length + 1)
          = .ok ⟨(v.length : Int), (pre.length + 1) + lb.length⟩ := by
        have h1 : (pre ++ [t]).length = pre.length + 1 := by simp
        rw [hshape1, ← h1, readLength_at_enc _ _ _ _ henc, h1]
      rw [hread]
      dsimp only
      have hget : (pre ++ (t :: (lb ++ v ++ rest))).getD pre.length 0 = t := by
        rw [getD_append_head]
        simp
      rw [hget]
      by_cases htag : t = tag
      · rw [if_neg (not_not_intro htag)]
        have hshape2 : pre ++ (t :: (lb ++ v ++ rest))
            = ((pre ++ [t]) ++ lb) ++ (v ++ rest) := by simp
        have hA : ((pre ++ [t]) ++ lb).length = pre.length + 1 + lb.length := by
          simp only [List.length_append, List.length_cons, List.length_nil]
        have hslice := jsSlice_exact ((pre ++ [t]) ++ lb) v rest
        rw [hA] at hslice
        have hfind : entryLookup ((t, v) :: es) tag = some v := by
          unfold entryLookup
          rw [List.find?_cons_of_pos _ (by simpa using htag)]
          rfl
        rw [hfind, hshape2]
        push_cast
        push_cast at hslice
        rw [hslice]
      · rw [if_pos htag]
        have hfind : entryLookup ((t, v) :: es) tag = entryLookup es tag := by
          unfold entryLookup
          rw [List.find?_cons_of_neg _ (by simpa using htag)]
        rw [hfind]
        have hpre2 : ((pre ++ [t]) ++ lb ++ v).length
            = pre.length + 1 + lb.length + v.length := by
          simp only [List.length_append, List.length_cons, List.length_nil]
        have hstep : pre ++ (t :: (lb ++ v ++ rest)) = ((pre ++ [t]) ++ lb ++ v) ++ rest := by
          simp
        have hi : (((pre.length + 1) + lb.length : Nat) : Int) + ((v.length : Nat) : Int)
            = ((((pre ++ [t]) ++ lb ++ v).length : Nat) : Int) := by
          rw [hpre2]
          push_cast
          omega
        rw [hi, hstep]
        exact ih ((pre ++ [t]) ++ lb ++ v) f (by omega)

/-- C7: over a buffer of consecutive well-formed top-level TLV entries,
getValue returns the value slice of the first entry with the wanted
1-byte tag and fails with a tag-not-found error exactly when no entry
carries it. -/
theorem claim_C7_getValue_scan (buffer : List Nat) (es : List (Nat × List Nat)) (tag : Nat)
    (hwf : WfTLVs buffer es) :
    (∀ v, entryLookup es tag = some v → getValue buffer tag = .ok v) ∧
    (entryLookup es tag = none → getValue buffer tag = .error .tagNotFound) := by
  have hlen : es.length + 1 ≤ buffer.length + 1 := by
    have := WfTLVs_entries_le hwf
    omega
  have h := getValueLoop_wf tag hwf [] (buffer.length + 1) hlen
  simp only [List.nil_append, List.length_nil, Nat.cast_zero] at h
  unfold getValue
  constructor
  · intro v hv
    rw [h, hv]
  · intro hv
    rw [h, hv]

/-- Witness for C7: the 0x70 entry is found behind an unrelated 0x71
entry of different length, and the scan of an empty buffer reports
tag-not-found. -/
theorem claim_C7_getValue_scan_witness :
    WfTLVs [0x71, 1, 0xAA, 0x70, 2, 0xBB, 0xCC] [(0x71, [0xAA]), (0x70, [0xBB, 0xCC])] ∧
    getValue [0x71, 1, 0xAA, 0x70, 2, 0xBB, 0xCC] 0x70 = .ok [0xBB, 0xCC] ∧
    getValue [] 0x70 = .error .tagNotFound := by
  have h2 : WfTLVs [0x70, 2, 0xBB, 0xCC] [(0x70, [0xBB, 0xCC])] := by
    have h := WfTLVs.cons 0x70 [2] [0xBB, 0xCC] [] [] (Or.inl (by norm_num)) WfTLVs.nil
    simpa using h
  have hwf : WfTLVs [0x71, 1, 0xAA, 0x70, 2, 0xBB, 0xCC]
      [(0x71, [0xAA]), (0x70, [0xBB, 0xCC])] := by
    have h := WfTLVs.cons 0x71 [1] [0xAA] [0x70, 2, 0xBB, 0xCC]
      [(0x70, [0xBB, 0xCC])] (Or.inl (by norm_num)) h2
    simpa using h
  refine ⟨hwf, ?_, ?_⟩
  · exact (claim_C7_getValue_scan _ _ 0x70 hwf).1 [0xBB, 0xCC] (by decide)
  · exact (claim_C7_getValue_scan [] [] 0x70 WfTLVs.nil).2 (by decide)

/-! ## serializeCommand layout (claims C4 and C5) -/

theorem paramsBytes_length (params : CommandParams) : (paramsBytes params).length = 2 := by
  cases params <;> rfl

theorem serializeCommand_eq (cla ins : Nat) (params : CommandParams)
    (data : Option (List Nat)) (ne : Option Nat) (hne : ne ≠ some 0) :
    serializeCommand ⟨cla, ins, params, data, ne⟩
      = .ok ((cla % 256 :: ins % 256 :: paramsBytes params)
          ++ lcDataBytes data ++ leBytes ne) := by
  have hp := paramsBytes_length params
  have hlen : ∀ dd nn, nn ≠ some 0 →
      ((cla % 256 :: ins % 256 :: paramsBytes params) ++ lcDataBytes dd ++ leBytes nn).length
        = 4 + (match dd with | some d => 1 + d.length | none => 0)
            + (match nn with | some _ => 1 | none => 0) := by
    intro dd nn _
    cases dd <;> cases nn <;>
      simp [lcDataBytes, leBytes, hp] <;> omega
  cases ne with
  | none =>
      show (if _ = _ then _ else _) = _
      rw [if_pos (hlen data none (by simp))]
  | some n =>
      cases n with
      | zero => exact absurd rfl hne
      | succ n =>
          show (if _ = _ then _ else _) = _
          rw [if_pos (hlen data (some (n + 1)) hne)]

/-- Specification-side untruncated header parameter bytes (what C4 says
the header holds: P1 and P2, or the two big-endian bytes of P). -/
def rawParamsBytes : CommandParams → List Nat
  | .separate p1 p2 => [p1, p2]
  | .combined p => [p / 256, p % 256]

/-- Specification-side untruncated Lc-plus-data field of C4. -/
def rawLcData : Option (List Nat) → List Nat
  | some d => d.length :: d
  | none => []

/-- Specification-side untruncated Le field of C4. -/
def rawLe : Option Nat → List Nat
  | some n => [n]
  | none => []

/-- C4 (amended): with byte-sized header fields, data of at most 255
bytes, and Ne between 1 and 255, serializeCommand emits exactly header,
Lc plus data, and Le; with Ne present and zero it throws the framing
error.  (For Ne above 255 the Le store truncates mod 256 — see the
counterexample — which forces the added Ne bound.) -/
theorem claim_C4_serializeCommand_layout :
    (∀ cla ins params data ne,
      cla < 256 → ins < 256 →
      (∀ p1 p2, params = CommandParams.separate p1 p2 → p1 < 256 ∧ p2 < 256) →
      (∀ p, params = CommandParams.combined p → p < 65536) →
      (∀ d, data = some d → d.length ≤ 255 ∧ ∀ x ∈ d, x < 256) →
      (∀ n, ne = some n → 0 < n ∧ n ≤ 255) →
      serializeCommand ⟨cla, ins, params, data, ne⟩
        = .ok ((cla :: ins :: rawParamsBytes params)
            ++ rawLcData data ++ rawLe ne)) ∧
    (∀ c : Command, c.ne = some 0 → serializeCommand c = .error .neZero) := by
  constructor
  · intro cla ins params data ne hcla hins hsep hcomb hdata hne
    rw [serializeCommand_eq cla ins params data ne
      (fun h => by have := (hne 0 h).1; omega)]
    have hparams : paramsBytes params = rawParamsBytes params := by
      cases params with
      | separate p1 p2 =>
          obtain ⟨h1, h2⟩ := hsep p1 p2 rfl
          simp [paramsBytes, rawParamsBytes, Nat.mod_eq_of_lt h1, Nat.mod_eq_of_lt h2]
      | combined p =>
          have hp := hcomb p rfl
          simp [paramsBytes, rawParamsBytes, Nat.mod_eq_of_lt hp]
    have hdata2 : lcDataBytes data = rawLcData data := by
      cases data with
      | none => rfl
      | some d =>
          obtain ⟨hlen, hbytes⟩ := hdata d rfl
          have hmap : d.map (fun x => x % 256) = d := by
            conv_rhs => rw [← List.map_id d]
            apply List.map_congr_left
            intro x hx
            exact Nat.mod_eq_of_lt (hbytes x hx)
          simp only [lcDataBytes, rawLcData, hmap, Nat.mod_eq_of_lt (show d.length < 256 by omega)]
    have hle : leBytes ne = rawLe ne := by
      cases ne with
      | none => rfl
      | some n =>
          have hn := (hne n rfl).2
          simp only [leBytes, rawLe, Nat.mod_eq_of_lt (show n < 256 by omega)]
    rw [hparams, hdata2, hle, Nat.mod_eq_of_lt hcla, Nat.mod_eq_of_lt hins]
  · intro c hc
    obtain ⟨cla, ins, params, data, ne⟩ := c
    cases hc
    rfl

/-- Counterexample to C4 as stated: Ne = 256 is nonzero yet the Le byte
written is 256 mod 256 = 0, not an Le byte equal to Ne. -/
theorem claim_C4_counterexample :
    serializeCommand ⟨0, 0, CommandParams.separate 0 0, none, some 256⟩
        = .ok [0, 0, 0, 0, 0] ∧
    serializeCommand ⟨0, 0, CommandParams.separate 0 0, none, some 256⟩
        ≠ .ok [0, 0, 0, 0, 256] := by
  constructor
  · decide
  · decide

/-- Witness for the amended C4: a SELECT-shaped command with data and a
maximal one-byte Ne, and the Ne = 0 framing failure. -/
theorem claim_C4_serializeCommand_layout_witness :
    serializeCommand ⟨0, 0xA4, CommandParams.separate 4 0, some [0xA0, 0, 0, 3, 8], some 255⟩
        = .ok [0, 0xA4, 4, 0, 5, 0xA0, 0, 0, 3, 8, 255] ∧
    serializeCommand ⟨0, 0xC0, CommandParams.combined 0, none, some 0⟩
        = .error .neZero := by
  constructor
  · have h := claim_C4_serializeCommand_layout.1 0 0xA4 (CommandParams.separate 4 0)
      (some [0xA0, 0, 0, 3, 8]) (some 255)
      (by norm_num) (by norm_num)
      (fun p1 p2 hp => by cases hp; exact ⟨by norm_num, by norm_num⟩)
      (fun p hp => by cases hp)
      (fun d hd => by cases hd; exact ⟨by norm_num, by decide⟩)
      (fun n hn => by cases hn; exact ⟨by norm_num, by norm_num⟩)
    simpa using h
  · exact claim_C4_serializeCommand_layout.2 _ rfl

/-- C5 (amended): serializeCommand does not reject oversized data.  For
data longer than 255 bytes it succeeds, silently writing the truncated
Lc byte `length mod 256`, and the internal length assert still passes;
no framing error occurs. -/
theorem claim_C5_oversized_data_truncates (cla ins : Nat) (params : CommandParams)
    (d : List Nat) (ne : Option Nat) (hd : 255 < d.length) (hne : ne ≠ some 0) :
    serializeCommand ⟨cla, ins, params, some d, ne⟩
      = .ok ((cla % 256 :: ins % 256 :: paramsBytes params)
          ++ (d.length % 256 :: d.map (fun x => x % 256))
          ++ leBytes ne) ∧
    d.length % 256 ≠ d.length := by
  refine ⟨serializeCommand_eq cla ins params (some d) ne hne, ?_⟩
  have h := Nat.mod_lt d.length (show 0 < 256 by norm_num)
  omega

set_option maxRecDepth 4000 in
/-- Counterexample to C5 as stated: 256 bytes of data serialize
successfully (Lc byte 0), instead of failing with a framing error. -/
theorem claim_C5_counterexample :
    serializeCommand ⟨0, 0, CommandParams.separate 0 0, some (List.replicate 256 0), none⟩
      = .ok (List.replicate 261 0) := by
  decide

/-- Witness for the amended C5 with 256 data bytes of value 7. -/
theorem claim_C5_oversized_data_truncates_witness :
    255 < (List.replicate 256 7 : List Nat).length ∧
    (serializeCommand ⟨1, 2, CommandParams.separate 3 4, some (List.replicate 256 7), none⟩
      = .ok ((1 % 256 :: 2 % 256 :: paramsBytes (CommandParams.separate 3 4))
          ++ ((List.replicate 256 7 : List Nat).length % 256
                :: (List.replicate 256 7 : List Nat).map (fun x => x % 256))
          ++ leBytes none) ∧
     (List.replicate 256 7 : List Nat).length % 256
       ≠ (List.replicate 256 7 : List Nat).length) :=
  ⟨by rw [List.length_replicate]; norm_num,
   claim_C5_oversized_data_truncates 1 2 (CommandParams.separate 3 4)
    (List.replicate 256 7) none (by rw [List.length_replicate]; norm_num)
    (by exact fun h => Option.noConfusion h)⟩

/-! ## fetchObject parse phase (claim C2) -/

theorem fetchBuffer_length (acc : List Nat) (h : acc.length ≤ 70000) :
    (fetchBuffer acc).length = 70000 := by
  unfold fetchBuffer MAX_DATA_LENGTH
  simp only [List.length_append, List.length_replicate]
  omega

theorem fetchBuffer_getD_lt (acc : List Nat) (i : Nat) (h : i < acc.length) :
    (fetchBuffer acc).getD i 0 = acc.getD i 0 :=
  List.getD_append _ _ _ _ h

theorem fetchBuffer_take (acc : List Nat) :
    (fetchBuffer acc).take acc.length = acc :=
  List.take_left _ _

theorem parse_slice_eq (acc : List Nat) (hcap : acc.length ≤ 70000) (v : Nat) (L : Int)
    (hsum : (v : Int) + L = (acc.length : Int)) :
    jsSlice (fetchBuffer acc) (v : Int) ((v : Int) + L) = acc.drop v := by
  rw [hsum]
  have hfb := fetchBuffer_length acc hcap
  unfold jsSlice
  rw [if_neg (by omega), if_neg (by omega), hfb]
  have he : min ((acc.length : Nat) : Int) ((70000 : Nat) : Int) = ((acc.length : Nat) : Int) := by
    rw [min_eq_left]
    omega
  rw [he, Int.toNat_ofNat, fetchBuffer_take]
  by_cases hv : v ≤ 70000
  · rw [min_eq_left (by omega), Int.toNat_ofNat]
  · rw [min_eq_right (by omega), Int.toNat_ofNat]
    rw [List.drop_eq_nil_of_le (by omega), List.drop_eq_nil_of_le (by omega)]

/-- The parse phase of fetchObject, characterized case by case: the
too-short guard, the discretionary-data tag check, the BER length read on
the zero-padded 70000-byte accumulation buffer, the exact-span check, and
the returned value slice. -/
theorem parseFetched_cases (acc : List Nat) (hcap : acc.length ≤ 70000)
    (hbytes : ∀ x ∈ acc, x < 256) :
    (acc.length < 2 → parseFetched acc = .error .getDataTooShort) ∧
    (2 ≤ acc.length →
      (acc.getD 0 0 ≠ DiscretionaryData → parseFetched acc = .error .notDiscretionaryData) ∧
      (acc.getD 0 0 = DiscretionaryData →
        (∃ bl, readLength (fetchBuffer acc) 1 = .ok bl) ∧
        (∀ L v, readLength (fetchBuffer acc) 1 = .ok ⟨L, v⟩ →
          (((v : Int) + L ≠ (acc.length : Int)) → parseFetched acc = .error .badBEREncoding) ∧
          (((v : Int) + L = (acc.length : Int)) → parseFetched acc = .ok (acc.drop v))))) := by
  constructor
  · intro h
    unfold parseFetched
    rw [if_pos h]
  · intro h2
    have hfb := fetchBuffer_length acc hcap
    have hget0 : (fetchBuffer acc).getD 0 0 = acc.getD 0 0 :=
      fetchBuffer_getD_lt acc 0 (by omega)
    constructor
    · intro htag
      unfold parseFetched
      rw [if_neg (by omega), if_pos (by rw [hget0]; exact htag)]
    · intro htag
      constructor
      · by_cases hb : (fetchBuffer acc).getD 1 0 < 128
        · exact ⟨_, readLength_short (by omega) hb⟩
        · by_cases hb128 : (fetchBuffer acc).getD 1 0 = 128
          · exact ⟨_, readLength_indefinite (by omega) hb128⟩
          · have hb256 : (fetchBuffer acc).getD 1 0 < 256 := by
              rw [fetchBuffer_getD_lt acc 1 (by omega)]
              have h1 : 1 < acc.length := by omega
              rw [List.getD_eq_getElem _ _ h1]
              exact hbytes _ (List.getElem_mem h1)
            have hwidth : 0 < (fetchBuffer acc).getD 1 0 &&& 127 := by
              rw [land_127_eq_mod]
              omega
            have hw127 : (fetchBuffer acc).getD 1 0 &&& 127 < 128 := by
              rw [land_127_eq_mod]
              exact Nat.mod_lt _ (by norm_num)
            refine ⟨⟨toInt32 (deserializeNumberAux (fetchBuffer acc) 2
                ((fetchBuffer acc).getD 1 0 &&& 127) ((fetchBuffer acc).getD 1 0 &&& 127) 0),
              1 + 1 + ((fetchBuffer acc).getD 1 0 &&& 127)⟩, ?_⟩
            unfold readLength
            rw [if_pos (by omega), if_neg hb, if_neg hb128]
            unfold deserializeNumber
            rw [if_pos (by omega)]
            rfl
      · intro L v hrl
        constructor
        · intro hne2
          unfold parseFetched
          rw [if_neg (by omega), if_neg (by rw [hget0]; simpa using htag), hrl]
          dsimp only
          rw [if_pos hne2]
        · intro heq
          unfold parseFetched
          rw [if_neg (by omega), if_neg (by rw [hget0]; simpa using htag), hrl]
          dsimp only
          rw [if_neg (not_not_intro heq)]
          rw [parse_slice_eq acc hcap v L heq]

/-- C2 (amended): given at least two accumulated bytes — a shorter
accumulation fails with the response-too-short error before any tag
check, see the counterexample — fetchObject's parse phase checks the
discretionary-data tag, reads the BER length at offset 1 of the padded
accumulation buffer, fails with the malformed-encoding error unless
valueOffset plus length equals the accumulated count, and otherwise
returns exactly the value slice. -/
theorem claim_C2_fetchObject_parse (acc : List Nat) (hcap : acc.length ≤ 70000)
    (hbytes : ∀ x ∈ acc, x < 256) :
    (acc.length < 2 → parseFetched acc = .error .getDataTooShort) ∧
    (2 ≤ acc.length →
      (acc.getD 0 0 ≠ DiscretionaryData → parseFetched acc = .error .notDiscretionaryData) ∧
      (acc.getD 0 0 = DiscretionaryData →
        (∃ bl, readLength (fetchBuffer acc) 1 = .ok bl) ∧
        (∀ L v, readLength (fetchBuffer acc) 1 = .ok ⟨L, v⟩ →
          (((v : Int) + L ≠ (acc.length : Int)) → parseFetched acc = .error .badBEREncoding) ∧
          (((v : Int) + L = (acc.length : Int)) → parseFetched acc = .ok (acc.drop v))))) :=
  parseFetched_cases acc hcap hbytes

/-- Witness for the amended C2 on the three-byte accumulation 53 01 AA. -/
theorem claim_C2_fetchObject_parse_witness :
    (([0x53, 0x01, 0xAA] : List Nat).length ≤ 70000 ∧
      ∀ x ∈ ([0x53, 0x01, 0xAA] : List Nat), x < 256) ∧
    ((([0x53, 0x01, 0xAA] : List Nat).length < 2 →
        parseFetched [0x53, 0x01, 0xAA] = .error .getDataTooShort) ∧
     (2 ≤ ([0x53, 0x01, 0xAA] : List Nat).length →
       (([0x53, 0x01, 0xAA] : List Nat).getD 0 0 ≠ DiscretionaryData →
         parseFetched [0x53, 0x01, 0xAA] = .error .notDiscretionaryData) ∧
       (([0x53, 0x01, 0xAA] : List Nat).getD 0 0 = DiscretionaryData →
         (∃ bl, readLength (fetchBuffer [0x53, 0x01, 0xAA]) 1 = .ok bl) ∧
         (∀ L v, readLength (fetchBuffer [0x53, 0x01, 0xAA]) 1 = .ok ⟨L, v⟩ →
           (((v : Int) + L ≠ (([0x53, 0x01, 0xAA] : List Nat).length : Int)) →
             parseFetched [0x53, 0x01, 0xAA] = .error .badBEREncoding) ∧
           (((v : Int) + L = (([0x53, 0x01, 0xAA] : List Nat).length : Int)) →
             parseFetched [0x53, 0x01, 0xAA] = .ok (([0x53, 0x01, 0xAA] : List Nat).drop v)))))) :=
  ⟨⟨by norm_num, by decide⟩,
   claim_C2_fetchObject_parse [0x53, 0x01, 0xAA] (by norm_num) (by decide)⟩

/-! ## fetchLoop step lemmas (claims C1 and C3) -/

theorem deserializeResponse_append (p : List Nat) (a b : Nat) (hp : p ≠ []) :
    deserializeResponse (p ++ [a, b]) = .ok ⟨some p, a * 256 + b, a, b⟩ := by
  have hplen : 0 < p.length := List.length_pos.mpr hp
  have hlen : (p ++ [a, b]).length = p.length + 2 := by simp
  unfold deserializeResponse
  rw [hlen]
  rw [if_neg (by omega), if_neg (by omega)]
  rw [show p.length + 2 - 2 = p.length from by omega]
  rw [show p.length + 2 - 1 = p.length + 1 from by omega]
  rw [getD_append_head, getD_append_offset, List.take_left]
  rfl

theorem fetchLoop_nil (cmd : Command) (acc : List Nat) :
    fetchLoop cmd [] acc
      = match serializeCommand cmd with
        | .error e => .error e
        | .ok _ => .error .transportExhausted := rfl

theorem fetchLoop_cons_eq (cmd : Command) (buf : List Nat) (rest : List (List Nat))
    (acc : List Nat) :
    fetchLoop cmd (buf :: rest) acc
      = match serializeCommand cmd with
        | .error e => .error e
        | .ok _ =>
            match deserializeResponse buf with
            | .error e => .error e
            | .ok r =>
                if r.sw ≠ SWSuccess ∧ r.sw1 ≠ SW1BytesStillAvailable then
                  .error (.statusWordError r.sw)
                else
                  match r.data with
                  | none => .error .noData
                  | some p =>
                      if MAX_DATA_LENGTH < acc.length + p.length then .error .objectTooLarge
                      else if r.sw = SWSuccess then .ok ([cmd], acc ++ p)
                      else consTrace cmd (fetchLoop (getResponseCommand r.sw2) rest (acc ++ p)) :=
  rfl

theorem fetchLoop_cons (cmd : Command) (sc buf : List Nat) (rest : List (List Nat))
    (acc : List Nat) (r : Response)
    (hser : serializeCommand cmd = .ok sc) (hdr : deserializeResponse buf = .ok r) :
    fetchLoop cmd (buf :: rest) acc
      = if r.sw ≠ SWSuccess ∧ r.sw1 ≠ SW1BytesStillAvailable then
          .error (.statusWordError r.sw)
        else
          match r.data with
          | none => .error .noData
          | some p =>
              if MAX_DATA_LENGTH < acc.length + p.length then .error .objectTooLarge
              else if r.sw = SWSuccess then .ok ([cmd], acc ++ p)
              else consTrace cmd (fetchLoop (getResponseCommand r.sw2) rest (acc ++ p)) := by
  rw [fetchLoop_cons_eq]
  rw [hser]
  dsimp only
  rw [hdr]

theorem serializeCommand_getResponse (s : Nat) (hs : s ≠ 0) :
    serializeCommand (getResponseCommand s) = .ok [0, 0xC0, 0, 0, s % 256] :=
  serializeCommand_eq 0 InstructionGetResponse (.combined GetResponsePUnused) none (some s)
    (fun h => hs (Option.some.inj h))

theorem serializeCommand_getResponse_zero :
    serializeCommand (getResponseCommand 0) = .error .neZero := rfl

theorem serializeCommand_initial_ok (objectTag : Nat) :
    ∃ sc, serializeCommand (initialGetDataCommand objectTag) = .ok sc :=
  ⟨_, serializeCommand_eq 0 InstructionGetData (.combined GetDataPCurrentDF)
    (some (pivTagList objectTag)) none (fun h => Option.noConfusion h)⟩

theorem fetchLoop_step_success (cmd : Command) (sc p : List Nat) (rest : List (List Nat))
    (acc : List Nat) (hser : serializeCommand cmd = .ok sc) (hp : p ≠ [])
    (hcap : acc.length + p.length ≤ 70000) :
    fetchLoop cmd ((p ++ [0x90, 0x00]) :: rest) acc = .ok ([cmd], acc ++ p) := by
  rw [fetchLoop_cons cmd sc _ rest acc _ hser (deserializeResponse_append p 0x90 0x00 hp)]
  dsimp only
  rw [if_neg (by norm_num [SWSuccess])]
  rw [if_neg (by simp only [MAX_DATA_LENGTH]; omega)]
  rw [if_pos (by norm_num [SWSuccess])]

theorem fetchLoop_step_cont (cmd : Command) (sc p : List Nat) (rest : List (List Nat))
    (acc : List Nat) (s : Nat) (hser : serializeCommand cmd = .ok sc) (hp : p ≠ [])
    (hs : s < 256) (hcap : acc.length + p.length ≤ 70000) :
    fetchLoop cmd ((p ++ [0x61, s]) :: rest) acc
      = consTrace cmd (fetchLoop (getResponseCommand s) rest (acc ++ p)) := by
  rw [fetchLoop_cons cmd sc _ rest acc _ hser (deserializeResponse_append p 0x61 s hp)]
  dsimp only
  rw [if_neg (by norm_num [SW1BytesStillAvailable])]
  rw [if_neg (by simp only [MAX_DATA_LENGTH]; omega)]
  rw [if_neg (by norm_num [SWSuccess]; omega)]

theorem fetchLoop_split :
    ∀ (ss : List Nat) (ps : List (List Nat)) (cmd : Command) (acc : List Nat)
      (junk : List (List Nat)),
      ps.length = ss.length + 1 →
      (∀ p ∈ ps, p ≠ []) →
      (∀ s ∈ ss, 0 < s ∧ s < 256) →
      (∃ sc, serializeCommand cmd = .ok sc) →
      acc.length + ps.flatten.length ≤ 70000 →
      fetchLoop cmd (mkSplit ps ss ++ junk) acc
        = .ok (cmd :: ss.map getResponseCommand, acc ++ ps.flatten) := by
  intro ss
  induction ss with
  | nil =>
      intro ps cmd acc junk hlen hne hss hser hcap
      obtain ⟨p, rfl⟩ : ∃ p, ps = [p] := by
        cases ps with
        | nil => simp at hlen
        | cons p t =>
            cases t with
            | nil => exact ⟨p, rfl⟩
            | cons q t2 => simp at hlen
      obtain ⟨sc, hsc⟩ := hser
      have hp : p ≠ [] := hne p (by simp)
      have hflat : ([p] : List (List Nat)).flatten = p := by simp
      rw [hflat] at hcap
      show fetchLoop cmd ((p ++ [0x90, 0x00]) :: junk) acc = _
      rw [fetchLoop_step_success cmd sc p junk acc hsc hp hcap, hflat]
      rfl
  | cons s ss ih =>
      intro ps cmd acc junk hlen hne hss hser hcap
      obtain ⟨p, q, ps2, rfl⟩ : ∃ p q ps2, ps = p :: q :: ps2 := by
        cases ps with
        | nil => simp at hlen
        | cons p t =>
            cases t with
            | nil => simp at hlen
            | cons q t2 => exact ⟨p, q, t2, rfl⟩
      obtain ⟨sc, hsc⟩ := hser
      have hp : p ≠ [] := hne p (by simp)
      have hs := hss s (by simp)
      have hflat : (p :: q :: ps2).flatten = p ++ (q :: ps2).flatten := by simp
      rw [hflat] at hcap
      simp only [List.length_append] at hcap
      show fetchLoop cmd (((p ++ [0x61, s]) :: mkSplit (q :: ps2) ss) ++ junk) acc = _
      rw [List.cons_append]
      rw [fetchLoop_step_cont cmd sc p _ acc s hsc hp hs.2 (by omega)]
      rw [ih (q :: ps2) (getResponseCommand s) (acc ++ p) junk (by simpa using hlen)
        (fun x hx => hne x (by simp [hx]))
        (fun x hx => hss x (by simp [hx]))
        ⟨_, serializeCommand_getResponse s (by omega)⟩
        (by simp only [List.length_append]; omega)]
      rw [hflat]
      simp [consTrace, List.append_assoc]

/-- C1 (amended): fetchObject reassembles byte-identical content whether
the object arrives in one Success response or split across an initial
GET DATA response with SW1 = 0x61 and subsequent GET RESPONSE responses,
provided every intermediate SW2 is nonzero (an SW2 of zero makes the next
GET RESPONSE fail serialization with the Ne-zero framing error, see the
counterexample); the loop accumulates the payloads in order, issues each
GET RESPONSE with Ne equal to the prior SW2, and consumes no response
after the Success one. -/
theorem claim_C1_fetchObject_reassembly (objectTag : Nat) (ps : List (List Nat))
    (ss : List Nat) (junk1 junk2 : List (List Nat))
    (htag1 : 0 < objectTag) (htag2 : objectTag < 16777216)
    (hlen : ps.length = ss.length + 1)
    (hne : ∀ p ∈ ps, p ≠ [])
    (hss : ∀ s ∈ ss, 0 < s ∧ s < 256)
    (hcap : ps.flatten.length ≤ 70000) :
    fetchObject objectTag (mkSplit ps ss ++ junk1) = parseFetched ps.flatten ∧
    fetchObject objectTag ([ps.flatten ++ [0x90, 0x00]] ++ junk2) = parseFetched ps.flatten ∧
    fetchLoop (initialGetDataCommand objectTag) (mkSplit ps ss ++ junk1) []
      = .ok (initialGetDataCommand objectTag :: ss.map getResponseCommand, ps.flatten) := by
  have hsz : 0 < numberByteSize objectTag ∧ numberByteSize objectTag ≤ 3 :=
    ⟨numberByteSize_pos htag1, numberByteSize_le (by norm_num; omega)⟩
  have hflatne : ps.flatten ≠ [] := by
    obtain ⟨p, t, rfl⟩ : ∃ p t, ps = p :: t := by
      cases ps with
      | nil => simp at hlen
      | cons p t => exact ⟨p, t, rfl⟩
    have hp : p ≠ [] := hne p (by simp)
    simp only [List.flatten_cons]
    intro hcontra
    exact hp (List.append_eq_nil.mp hcontra).1
  have hsplit := fetchLoop_split ss ps (initialGetDataCommand objectTag) [] junk1
    hlen hne hss (serializeCommand_initial_ok _) (by simpa using hcap)
  have hsingle := fetchLoop_split [] [ps.flatten] (initialGetDataCommand objectTag) [] junk2
    (by simp) (by intro x hx; rw [List.mem_singleton] at hx; rw [hx]; exact hflatne)
    (by simp) (serializeCommand_initial_ok _) (by simpa using hcap)
  refine ⟨?_, ?_, ?_⟩
  · unfold fetchObject
    rw [if_pos hsz, hsplit]
    simp
  · unfold fetchObject
    rw [if_pos hsz]
    have hms : mkSplit [ps.flatten] [] ++ junk2 = [ps.flatten ++ [0x90, 0x00]] ++ junk2 := rfl
    rw [← hms, hsingle]
    simp
  · rw [hsplit]
    simp
theorem claim_C10_number_roundtrip_witness :
    (1 ≤ 300 ∧ 300 < 2147483648 ∧ 1 + numberByteSize 300 ≤ ([9, 9, 9, 9] : List Nat).length) ∧
    ((serializeNumber [9, 9, 9, 9] 1 300).length = ([9, 9, 9, 9] : List Nat).length ∧
     (∀ j, j < 1 ∨ 1 + numberByteSize 300 ≤ j →
       (serializeNumber [9, 9, 9, 9] 1 300).getD j 0 = ([9, 9, 9, 9] : List Nat).getD j 0) ∧
     deserializeNumber (serializeNumber [9, 9, 9, 9] 1 300) 1 (numberByteSize 300)
       = .ok ((300 : Nat) : Int)) :=
  ⟨⟨by norm_num, by norm_num, by rw [numberByteSize_300]; norm_num⟩,
   claim_C10_number_roundtrip [9, 9, 9, 9] 1 300 (by norm_num) (by norm_num)
     (by rw [numberByteSize_300]; norm_num)⟩

/-- Exact byte size of any three-byte value, through the two power
bounds (evaluating numberByteSize at a literal directly would unfold its
well-founded recursion, so the claim proofs go through this instead). -/
theorem numberByteSize_eq_three {v : Nat} (hlo : 65536 ≤ v) (hhi : v < 16777216) :
    numberByteSize v = 3 := by
  have h1 : numberByteSize v ≤ 3 :=
    numberByteSize_le (show v < 2 ^ (8 * 3) from by norm_num; omega)
  have h2 := lt_two_pow_numberByteSize v
  by_contra hne
  have h3 : numberByteSize v ≤ 2 := by omega
  have h4 : (2 : Nat) ^ (8 * numberByteSize v) ≤ 2 ^ (8 * 2) :=
    Nat.pow_le_pow_right (by norm_num) (by omega)
  have h5 : (2 : Nat) ^ (8 * 2) = 65536 := by norm_num
  rw [h5] at h4
  omega

/-- Concrete evaluation of numberByteSize at the PIV certificate tag. -/
theorem numberByteSize_piv : numberByteSize 0x5FC101 = 3 :=
  numberByteSize_eq_three (by norm_num) (by norm_num)

theorem claim_C1_fetchObject_reassembly_witness :
    (0 < 0x5FC101 ∧ (0x5FC101 : Nat) < 16777216 ∧
     ([[0x53], [0x01, 0xCC]] : List (List Nat)).length = ([2] : List Nat).length + 1 ∧
     (∀ p ∈ ([[0x53], [0x01, 0xCC]] : List (List Nat)), p ≠ []) ∧
     (∀ s ∈ ([2] : List Nat), 0 < s ∧ s < 256) ∧
     ([[0x53], [0x01, 0xCC]] : List (List Nat)).flatten.length ≤ 70000) ∧
    (fetchObject 0x5FC101 (mkSplit [[0x53], [0x01, 0xCC]] [2] ++ [])
       = parseFetched ([[0x53], [0x01, 0xCC]] : List (List Nat)).flatten ∧
     fetchObject 0x5FC101
         ([([[0x53], [0x01, 0xCC]] : List (List Nat)).flatten ++ [0x90, 0x00]] ++ [])
       = parseFetched ([[0x53], [0x01, 0xCC]] : List (List Nat)).flatten ∧
     fetchLoop (initialGetDataCommand 0x5FC101) (mkSplit [[0x53], [0x01, 0xCC]] [2] ++ []) []
       = .ok (initialGetDataCommand 0x5FC101 :: ([2] : List Nat).map getResponseCommand,
           ([[0x53], [0x01, 0xCC]] : List (List Nat)).flatten)) :=
  ⟨⟨by norm_num, by norm_num, by decide, by decide, by decide, by decide⟩,
   claim_C1_fetchObject_reassembly 0x5FC101 [[0x53], [0x01, 0xCC]] [2] [] []
     (by norm_num) (by norm_num) (by decide) (by decide) (by decide) (by decide)⟩

/-- Counterexample to the unamended C1: when an intermediate response
reports SW1 = 0x61 with SW2 = 0, the follow-up GET RESPONSE command has
Ne = 0 and serializeCommand rejects it, so the split delivery errors out
while the single-response delivery of the same object succeeds. -/
theorem claim_C1_counterexample :
    fetchObject 0x5FC101 [[0x53, 0x61, 0x00], [0x01, 0xCC, 0x90, 0x00]] = .error .neZero ∧
    fetchObject 0x5FC101 [[0x53, 0x01, 0xCC, 0x90, 0x00]] = .ok [0xCC] := by
  obtain ⟨sc, hsc⟩ := serializeCommand_initial_ok 0x5FC101
  constructor
  · unfold fetchObject
    rw [if_pos (by rw [numberByteSize_piv]; norm_num)]
    rw [show ([0x53, 0x61, 0x00] : List Nat) = [0x53] ++ [0x61, 0x00] from rfl]
    rw [fetchLoop_step_cont _ sc [0x53] _ [] 0 hsc (by decide) (by norm_num) (by norm_num)]
    rfl
  · unfold fetchObject
    rw [if_pos (by rw [numberByteSize_piv]; norm_num)]
    rw [show ([0x53, 0x01, 0xCC, 0x90, 0x00] : List Nat)
        = [0x53, 0x01, 0xCC] ++ [0x90, 0x00] from rfl]
    rw [fetchLoop_step_success _ sc [0x53, 0x01, 0xCC] [] [] hsc (by decide) (by norm_num)]
    show parseFetched ([] ++ [0x53, 0x01, 0xCC]) = .ok [0xCC]
    have hp := parseFetched_cases [0x53, 0x01, 0xCC] (by norm_num) (by decide)
    have hg : (fetchBuffer [0x53, 0x01, 0xCC]).getD 1 0 = 1 := by
      rw [fetchBuffer_getD_lt _ 1 (by norm_num)]
      rfl
    have hrl : readLength (fetchBuffer [0x53, 0x01, 0xCC]) 1
        = .ok ⟨((fetchBuffer [0x53, 0x01, 0xCC]).getD 1 0 : Int), 1 + 1⟩ :=
      readLength_short (by rw [fetchBuffer_length _ (by norm_num)]; norm_num)
        (by rw [hg]; norm_num)
    rw [hg] at hrl
    have h4 := ((hp.2 (by norm_num)).2 (by rfl)).2 1 2 hrl
    exact h4.2 (by norm_num)

/-- Counterexample to the unamended C2: one accumulated byte equal to the
discretionary-data tag trips the dataLength < 2 guard, which the code
checks before the tag and BER-length steps, so the failure is the
too-short error rather than the malformed-encoding error the claimed
parse order would produce. -/
theorem claim_C2_counterexample :
    parseFetched [0x53] = .error .getDataTooShort ∧
    parseFetched [0x53] ≠ .error .badBEREncoding := by
  have h : parseFetched [0x53] = .error .getDataTooShort := by
    unfold parseFetched
    rw [if_pos (by norm_num)]
  exact ⟨h, by rw [h]; decide⟩

/-! ## fetchLoop capacity behavior (claim C3) -/

theorem serializeCommand_ne_tooLarge (cmd : Command) :
    serializeCommand cmd ≠ .error .objectTooLarge := by
  obtain ⟨cla, ins, params, data, ne⟩ := cmd
  by_cases hz : ne = some 0
  · subst hz
    rw [show serializeCommand ⟨cla, ins, params, data, some 0⟩ = .error .neZero from rfl]
    simp
  · rw [serializeCommand_eq cla ins params data ne hz]
    simp

theorem deserializeResponse_ne_tooLarge (buf : List Nat) :
    deserializeResponse buf ≠ .error .objectTooLarge := by
  unfold deserializeResponse
  by_cases h2 : buf.length < 2
  · rw [if_pos h2]
    simp
  · rw [if_neg h2]
    simp only []
    by_cases he : buf.length = 2
    · rw [if_pos he]
      simp
    · rw [if_neg he]
      simp

theorem deserializeResponse_data_le (buf : List Nat) (r : Response) (p : List Nat)
    (h : deserializeResponse buf = .ok r) (hd : r.data = some p) :
    p.length ≤ buf.length := by
  unfold deserializeResponse at h
  by_cases h2 : buf.length < 2
  · rw [if_pos h2] at h
    exact absurd h (by simp)
  · rw [if_neg h2] at h
    simp only [] at h
    by_cases he : buf.length = 2
    · rw [if_pos he] at h
      injection h with h'
      rw [← h'] at hd
      exact absurd hd (by simp)
    · rw [if_neg he] at h
      injection h with h'
      rw [← h'] at hd
      simp only [Option.some.injEq] at hd
      rw [← hd, List.length_take]
      omega

theorem consTrace_error (cmd : Command) (x : Except JsError (List Command × List Nat))
    (e : JsError) : consTrace cmd x = .error e ↔ x = .error e := by
  cases x with
  | error e2 => simp [consTrace]
  | ok pr =>
      obtain ⟨a, b⟩ := pr
      simp [consTrace]

theorem fetchLoop_no_tooLarge :
    ∀ (transport : List (List Nat)) (cmd : Command) (acc : List Nat),
      acc.length + (transport.map List.length).sum ≤ 70000 →
      fetchLoop cmd transport acc ≠ .error .objectTooLarge := by
  intro transport
  induction transport with
  | nil =>
      intro cmd acc _
      rw [fetchLoop_nil]
      cases hs : serializeCommand cmd with
      | error e =>
          intro h
          injection h with h'
          rw [h'] at hs
          exact serializeCommand_ne_tooLarge cmd hs
      | ok sc => simp
  | cons buf rest ih =>
      intro cmd acc hcap
      simp only [List.map_cons, List.sum_cons] at hcap
      rw [fetchLoop_cons_eq]
      cases hs : serializeCommand cmd with
      | error e =>
          dsimp only
          intro h
          injection h with h'
          rw [h'] at hs
          exact serializeCommand_ne_tooLarge cmd hs
      | ok sc =>
          dsimp only
          cases hd : deserializeResponse buf with
          | error e =>
              dsimp only
              intro h
              injection h with h'
              rw [h'] at hd
              exact deserializeResponse_ne_tooLarge buf hd
          | ok r =>
              dsimp only
              by_cases hstat : r.sw ≠ SWSuccess ∧ r.sw1 ≠ SW1BytesStillAvailable
              · rw [if_pos hstat]
                simp
              · rw [if_neg hstat]
                cases hdata : r.data with
                | none => simp
                | some p =>
                    dsimp only
                    have hple : p.length ≤ buf.length :=
                      deserializeResponse_data_le buf r p hd hdata
                    rw [if_neg (by simp only [MAX_DATA_LENGTH]; omega)]
                    by_cases hsw : r.sw = SWSuccess
                    · rw [if_pos hsw]
                      simp
                    · rw [if_neg hsw]
                      intro h
                      exact ih (getResponseCommand r.sw2) (acc ++ p)
                        (by simp only [List.length_append]; omega)
                        ((consTrace_error _ _ _).mp h)

/-- C3: the capacity check of fetchObject's loop fires exactly at the
boundary: a response whose payload pushes the accumulated total past
70000 bytes makes the loop return the object-too-large error on that very
response, before the payload is appended; and whenever the accumulated
bytes plus everything the transport can still deliver stay within 70000
bytes, the loop never returns the object-too-large error. -/
theorem claim_C3_capacity (cmd : Command) (sc p : List Nat) (s1 s2 : Nat)
    (rest : List (List Nat)) (acc : List Nat)
    (cmd2 : Command) (transport2 : List (List Nat)) (acc2 : List Nat)
    (hser : serializeCommand cmd = .ok sc)
    (hsw : s1 = 0x90 ∧ s2 = 0x00 ∨ s1 = 0x61)
    (hp : p ≠ [])
    (hover : 70000 < acc.length + p.length)
    (hcap : acc2.length + (transport2.map List.length).sum ≤ 70000) :
    fetchLoop cmd ((p ++ [s1, s2]) :: rest) acc = .error .objectTooLarge ∧
    fetchLoop cmd2 transport2 acc2 ≠ .error .objectTooLarge := by
  constructor
  · rw [fetchLoop_cons cmd sc _ rest acc _ hser (deserializeResponse_append p s1 s2 hp)]
    dsimp only
    rw [if_neg (by
      rcases hsw with ⟨h1, h2⟩ | h1
      · subst h1
        subst h2
        exact fun hc => hc.1 (by norm_num [SWSuccess])
      · exact fun hc => hc.2 (h1.trans rfl))]
    rw [if_pos (by simp only [MAX_DATA_LENGTH]; omega)]
  · exact fetchLoop_no_tooLarge transport2 cmd2 acc2 hcap

theorem claim_C3_capacity_witness :
    (serializeCommand (getResponseCommand 1) = .ok [0, 0xC0, 0, 0, 1] ∧
     ((0x90 : Nat) = 0x90 ∧ (0x00 : Nat) = 0x00 ∨ (0x90 : Nat) = 0x61) ∧
     (0 :: List.replicate 70000 0 : List Nat) ≠ [] ∧
     70000 < ([] : List Nat).length + (0 :: List.replicate 70000 0 : List Nat).length ∧
     ([] : List Nat).length
       + (([[0x01, 0xCC, 0x90, 0x00]] : List (List Nat)).map List.length).sum ≤ 70000) ∧
    (fetchLoop (getResponseCommand 1)
        (((0 :: List.replicate 70000 0) ++ [0x90, 0x00]) :: []) [] = .error .objectTooLarge ∧
     fetchLoop (getResponseCommand 1) [[0x01, 0xCC, 0x90, 0x00]] []
       ≠ .error .objectTooLarge) :=
  ⟨⟨rfl, Or.inl ⟨rfl, rfl⟩, List.cons_ne_nil 0 _,
    by rw [List.length_cons, List.length_replicate]; norm_num, by norm_num⟩,
   claim_C3_capacity (getResponseCommand 1) [0, 0xC0, 0, 0, 1] (0 :: List.replicate 70000 0)
     0x90 0x00 [] [] (getResponseCommand 1) [[0x01, 0xCC, 0x90, 0x00]] []
     rfl (Or.inl ⟨rfl, rfl⟩) (List.cons_ne_nil 0 _)
     (by rw [List.length_cons, List.length_replicate]; norm_num) (by norm_num)⟩

/-! ## Reader tracking update step (claim C9) -/

theorem removeStateInWithName_cons (s : StateIn) (rest : List StateIn) (o : String) :
    removeStateInWithName (s :: rest) o
      = if s.readerName = o then rest else s :: removeStateInWithName rest o := rfl

theorem overwriteFirstStateIn_cons (o : StateOut) (s : StateIn) (rest : List StateIn) :
    overwriteFirstStateIn o (s :: rest)
      = if s.readerName = o.readerName then
          .ok ({ readerName := s.readerName,
                 currentState := .flags (jsTruthy o.eventState.empty)
                   (jsTruthy o.eventState.present) (jsTruthy o.eventState.exclusive)
                   (jsTruthy o.eventState.inuse) (jsTruthy o.eventState.mute),
                 currentCount := some o.eventCount } :: rest)
        else
          match overwriteFirstStateIn o rest with
          | .error e => .error e
          | .ok l => .ok (s :: l) := rfl

theorem updateReaderStatesIn_cons (l : List StateIn) (o : StateOut) (outs : List StateOut) :
    updateReaderStatesIn l (o :: outs)
      = match applyStateOut l o with
        | .error e => .error e
        | .ok l2 => updateReaderStatesIn l2 outs := rfl

theorem removeStateInWithName_found (o : String) :
    ∀ (pre : List StateIn) (post : List StateIn) (s : StateIn),
      (∀ x ∈ pre, x.readerName ≠ o) → s.readerName = o →
      removeStateInWithName (pre ++ s :: post) o = pre ++ post := by
  intro pre
  induction pre with
  | nil =>
      intro post s _ hs
      rw [List.nil_append, removeStateInWithName_cons, if_pos hs, List.nil_append]
  | cons x pre ih =>
      intro post s hpre hs
      rw [List.cons_append, removeStateInWithName_cons, if_neg (hpre x (by simp)),
        ih post s (fun y hy => hpre y (by simp [hy])) hs, List.cons_append]

theorem overwriteFirstStateIn_found (o : StateOut) :
    ∀ (pre : List StateIn) (post : List StateIn) (s : StateIn),
      (∀ x ∈ pre, x.readerName ≠ o.readerName) → s.readerName = o.readerName →
      overwriteFirstStateIn o (pre ++ s :: post)
        = .ok (pre ++ { readerName := s.readerName,
                        currentState := .flags (jsTruthy o.eventState.empty)
                          (jsTruthy o.eventState.present) (jsTruthy o.eventState.exclusive)
                          (jsTruthy o.eventState.inuse) (jsTruthy o.eventState.mute),
                        currentCount := some o.eventCount } :: post) := by
  intro pre
  induction pre with
  | nil =>
      intro post s _ hs
      rw [List.nil_append, overwriteFirstStateIn_cons, if_pos hs, List.nil_append]
  | cons x pre ih =>
      intro post s hpre hs
      rw [List.cons_append, overwriteFirstStateIn_cons, if_neg (hpre x (by simp)),
        ih post s (fun y hy => hpre y (by simp [hy])) hs, List.cons_append]

/-- C9: one iteration of updateReaderStatesIn's forEach over the tracked
list decomposed around the first entry carrying the reported name: a
reported unknown or unavailable event state removes exactly that entry
(the rest of the list unchanged) before the remaining reports are
processed; any other event state overwrites exactly that entry's five
state flags (absent flags defaulting to false) and its event counter with
the reported event count, leaving every other entry unchanged; and an
empty report list leaves the tracked list as is. -/
theorem claim_C9_tracking_apply (pre post : List StateIn) (s : StateIn) (o : StateOut)
    (outs : List StateOut)
    (hpre : ∀ x ∈ pre, x.readerName ≠ o.readerName)
    (hs : s.readerName = o.readerName) :
    (o.eventState.unknown = some true ∨ o.eventState.unavailable = some true →
       removeStateInWithName (pre ++ s :: post) o.readerName = pre ++ post ∧
       updateReaderStatesIn (pre ++ s :: post) (o :: outs)
         = updateReaderStatesIn (pre ++ post) outs) ∧
    (¬(o.eventState.unknown = some true ∨ o.eventState.unavailable = some true) →
       updateReaderStatesIn (pre ++ s :: post) (o :: outs)
         = updateReaderStatesIn
             (pre ++ { readerName := s.readerName,
                       currentState := .flags (jsTruthy o.eventState.empty)
                         (jsTruthy o.eventState.present) (jsTruthy o.eventState.exclusive)
                         (jsTruthy o.eventState.inuse) (jsTruthy o.eventState.mute),
                       currentCount := some o.eventCount } :: post) outs) ∧
    updateReaderStatesIn (pre ++ s :: post) [] = .ok (pre ++ s :: post) := by
  refine ⟨?_, ?_, rfl⟩
  · intro h
    have hr := removeStateInWithName_found o.readerName pre post s hpre hs
    refine ⟨hr, ?_⟩
    rw [updateReaderStatesIn_cons]
    rw [show applyStateOut (pre ++ s :: post) o
        = .ok (removeStateInWithName (pre ++ s :: post) o.readerName) from by
      unfold applyStateOut
      rw [if_pos h]]
    rw [hr]
  · intro h
    rw [updateReaderStatesIn_cons]
    rw [show applyStateOut (pre ++ s :: post) o
        = overwriteFirstStateIn o (pre ++ s :: post) from by
      unfold applyStateOut
      rw [if_neg h]]
    rw [overwriteFirstStateIn_found o pre post s hpre hs]

theorem claim_C9_tracking_apply_witness :
    ((∀ x ∈ ([⟨"A", .unaware, none⟩] : List StateIn),
        x.readerName
          ≠ (⟨"B", ⟨none, some true, none, none, none, none, none, none⟩, 3⟩
              : StateOut).readerName) ∧
     (⟨"B", .unaware, none⟩ : StateIn).readerName
       = (⟨"B", ⟨none, some true, none, none, none, none, none, none⟩, 3⟩
           : StateOut).readerName) ∧
    (removeStateInWithName [⟨"A", .unaware, none⟩, ⟨"B", .unaware, none⟩] "B"
        = [⟨"A", .unaware, none⟩] ∧
     updateReaderStatesIn [⟨"A", .unaware, none⟩, ⟨"B", .unaware, none⟩]
         [⟨"B", ⟨none, some true, none, none, none, none, none, none⟩, 3⟩]
       = .ok [⟨"A", .unaware, none⟩]) ∧
    updateReaderStatesIn [⟨"A", .unaware, none⟩, ⟨"B", .unaware, none⟩]
        [⟨"B", ⟨none, none, none, none, some true, none, some false, none⟩, 9⟩]
      = .ok [⟨"A", .unaware, none⟩, ⟨"B", .flags false true false false false, some 9⟩] := by
  have h1 := claim_C9_tracking_apply [⟨"A", .unaware, none⟩] [] ⟨"B", .unaware, none⟩
    ⟨"B", ⟨none, some true, none, none, none, none, none, none⟩, 3⟩ []
    (by intro x hx; rw [List.mem_singleton] at hx; rw [hx]; decide) rfl
  have h2 := claim_C9_tracking_apply [⟨"A", .unaware, none⟩] [] ⟨"B", .unaware, none⟩
    ⟨"B", ⟨none, none, none, none, some true, none, some false, none⟩, 9⟩ []
    (by intro x hx; rw [List.mem_singleton] at hx; rw [hx]; decide) rfl
  refine ⟨⟨?_, rfl⟩, ?_, ?_⟩
  · intro x hx
    rw [List.mem_singleton] at hx
    rw [hx]
    decide
  · have h := h1.1 (Or.inl rfl)
    exact ⟨h.1, h.2.trans rfl⟩
  · have h := h2.2.1 (by decide)
    exact h.trans rfl
